import Mathlib

/-!
Verification of the strict-s3-sync sync planning and execution engine.

Each Go function of the repository that the claims touch is embedded as a
Lean definition; machine integers are modelled as `Nat` (all values the
claims range over are non-negative and no operation overflows int64 on
them), fallible Go functions return `Except`, and the per-item effects of
the concurrent components are abstracted as explicit oracle functions so
that the deterministic data flow around them can be proved.
-/

namespace S3Sync

/-! ## Data model (pkg/planner/internal.go and the planner type file) -/

/-- Sync action (`type Action string` in Go); compared by string order. -/
abbrev Action := String

def ActionUpload : Action := "upload"

def ActionDelete : Action := "delete"

structure ItemMetadata where
  Path : String
  Size : Nat
  Checksum : String
  deriving Repr, DecidableEq

structure ItemRef where
  Path : String
  Size : Nat
  deriving Repr, DecidableEq

structure Phase1Result where
  NewItems : List ItemRef
  DeletedItems : List ItemRef
  SizeMismatch : List ItemRef
  NeedChecksum : List ItemRef
  Identical : List ItemRef
  deriving Repr, DecidableEq

structure ChecksumData where
  ItemRef : ItemRef
  SourceChecksum : String
  DestChecksum : String
  deriving Repr, DecidableEq

structure Item where
  Action : Action
  LocalPath : String
  S3Key : String
  Size : Nat
  Reason : String
  Checksum : String
  deriving Repr, DecidableEq

/-! ## Go path handling (path/filepath Join and Clean, slash separator) -/

/-- One step of Go path.Clean's ".." elimination over the component stack
(stack held reversed). -/
def cleanStep (rooted : Bool) (st : List String) (c : String) : List String :=
  if c = ".." then
    match st with
    | [] => if rooted then [] else [".."]
    | top :: rest => if top = ".." then c :: st else rest
  else c :: st

/-- Go path.Clean (equivalently filepath.Clean on slash-separated paths):
collapse repeated separators, drop "." components, resolve ".." against
parent components, keep a leading "/" of rooted paths, and return "."
for an empty result. -/
def goClean (p : String) : String :=
  if p = "" then "." else
  let rooted := p.data.head? = some '/'
  let comps := (p.splitOn "/").filter (fun c => c != "" && c != ".")
  let stack := comps.foldl (cleanStep rooted) []
  let body := String.intercalate "/" stack.reverse
  if rooted then "/" ++ body
  else if body = "" then "." else body

/-- Go filepath.Join for two elements: empty elements are dropped and the
slash-joined remainder is Cleaned; Join of only empty elements is "". -/
def goJoin (a b : String) : String :=
  if a = "" then (if b = "" then "" else goClean b)
  else if b = "" then goClean a
  else goClean (a ++ "/" ++ b)

/-! ## Phase 1 comparator (Phase1Compare in the planner)

The Go function builds one map per side keyed by Path (later insertions
overwrite) and appends each source-map entry to exactly one of four lists,
then fills DeletedItems from the dest map when deletion is enabled and
sorts all five lists by path.  The embedding builds the maps as
association lists with overwrite-on-insert, classifies every map entry with
the same per-entry conditions (the single Go loop is decomposed into one
filterMap per bucket; the classification of an entry is independent of the
others and map iteration order is immaterial because every bucket is sorted
before returning), and sorts with an order-equivalent comparison. -/

/-- Go map insertion `m[item.Path] = item`: overwrite the binding if the
path is present, otherwise add it. -/
def mapInsert (m : List ItemMetadata) (x : ItemMetadata) : List ItemMetadata :=
  if m.any (fun y => y.Path == x.Path) then
    m.map (fun y => if y.Path = x.Path then x else y)
  else m ++ [x]

/-- The path-keyed Go map of a metadata list, as an association list. -/
def buildPathMap (items : List ItemMetadata) : List ItemMetadata :=
  items.foldl mapInsert []

/-- Go map lookup by path. -/
def lookupPath (m : List ItemMetadata) (p : String) : Option ItemMetadata :=
  m.find? (fun y => y.Path == p)

def refLe (a b : ItemRef) : Prop := a.Path ≤ b.Path

instance : DecidableRel refLe := fun a b => inferInstanceAs (Decidable (a.Path ≤ b.Path))

instance : IsTotal ItemRef refLe := ⟨fun a b => le_total a.Path b.Path⟩

instance : IsTrans ItemRef refLe := ⟨fun _ _ _ h h' => le_trans h h'⟩

/-- sortItemRefs: sort.Slice by `refs[i].Path < refs[j].Path` (modelled as a
sort by the reflexive order; Go's unstable sort and this one agree up to
reordering of equal keys, and the claims' inputs have distinct keys). -/
def sortItemRefs (refs : List ItemRef) : List ItemRef :=
  refs.insertionSort refLe

def sortPhase1Result (r : Phase1Result) : Phase1Result :=
  { NewItems := sortItemRefs r.NewItems
    DeletedItems := sortItemRefs r.DeletedItems
    SizeMismatch := sortItemRefs r.SizeMismatch
    NeedChecksum := sortItemRefs r.NeedChecksum
    Identical := sortItemRefs r.Identical }

/-- Per-entry classification of a source-map entry, exactly the branch
structure of the Go loop body. -/
def classifyNew (destMap : List ItemMetadata) (s : ItemMetadata) : Option ItemRef :=
  match lookupPath destMap s.Path with
  | some _ => none
  | none => some ⟨s.Path, s.Size⟩

def classifySizeMismatch (destMap : List ItemMetadata) (s : ItemMetadata) : Option ItemRef :=
  match lookupPath destMap s.Path with
  | some d => if s.Size ≠ d.Size then some ⟨s.Path, s.Size⟩ else none
  | none => none

def classifyIdentical (destMap : List ItemMetadata) (s : ItemMetadata) : Option ItemRef :=
  match lookupPath destMap s.Path with
  | some d =>
    if s.Size ≠ d.Size then none
    else if d.Checksum ≠ "" ∧ s.Checksum ≠ "" ∧ s.Checksum = d.Checksum then some ⟨s.Path, s.Size⟩
    else none
  | none => none

def classifyNeedChecksum (destMap : List ItemMetadata) (s : ItemMetadata) : Option ItemRef :=
  match lookupPath destMap s.Path with
  | some d =>
    if s.Size ≠ d.Size then none
    else if d.Checksum ≠ "" ∧ s.Checksum ≠ "" ∧ s.Checksum = d.Checksum then none
    else some ⟨s.Path, s.Size⟩
  | none => none

def Phase1Compare (source dest : List ItemMetadata) (deleteEnabled : Bool) :
    Phase1Result :=
  let sourceMap := buildPathMap source
  let destMap := buildPathMap dest
  sortPhase1Result
    { NewItems := sourceMap.filterMap (classifyNew destMap)
      SizeMismatch := sourceMap.filterMap (classifySizeMismatch destMap)
      Identical := sourceMap.filterMap (classifyIdentical destMap)
      NeedChecksum := sourceMap.filterMap (classifyNeedChecksum destMap)
      DeletedItems :=
        if deleteEnabled then
          destMap.filterMap (fun d =>
            match lookupPath sourceMap d.Path with
            | some _ => none
            | none => some ⟨d.Path, d.Size⟩)
        else [] }

example :
    Phase1Compare [⟨"a.txt", 100, ""⟩] [] false =
      { NewItems := [⟨"a.txt", 100⟩], DeletedItems := [], SizeMismatch := [],
        NeedChecksum := [], Identical := [] } := by decide

/-! ## Phase 3 plan generator (Phase3GeneratePlan in the planner)

The Go function appends one upload per NewItems entry, one per
SizeMismatch entry, one per NeedChecksum entry whose checksum-map match
shows differing checksums, then one delete per DeletedItems entry, and
sorts the result with sort.Slice by (Action, S3Key). -/

/-- Go map insertion for the checksum map `checksumMap[cs.ItemRef.Path] = cs`. -/
def csMapInsert (m : List ChecksumData) (x : ChecksumData) : List ChecksumData :=
  if m.any (fun y => y.ItemRef.Path == x.ItemRef.Path) then
    m.map (fun y => if y.ItemRef.Path = x.ItemRef.Path then x else y)
  else m ++ [x]

def buildChecksumMap (checksums : List ChecksumData) : List ChecksumData :=
  checksums.foldl csMapInsert []

def lookupChecksum (m : List ChecksumData) (p : String) : Option ChecksumData :=
  m.find? (fun y => y.ItemRef.Path == p)

/-- Item comparison of the final sort.Slice: by Action (string order,
"delete" < "upload"), then by S3Key; modelled as the reflexive order. -/
def itemLe (x y : Item) : Prop :=
  x.Action < y.Action ∨ (x.Action = y.Action ∧ x.S3Key ≤ y.S3Key)

instance : DecidableRel itemLe := fun x y =>
  inferInstanceAs (Decidable (x.Action < y.Action ∨ (x.Action = y.Action ∧ x.S3Key ≤ y.S3Key)))

instance : IsTotal Item itemLe := by
  constructor
  intro a b
  rcases lt_trichotomy a.Action b.Action with h | h | h
  · exact Or.inl (Or.inl h)
  · rcases le_total a.S3Key b.S3Key with h' | h'
    · exact Or.inl (Or.inr ⟨h, h'⟩)
    · exact Or.inr (Or.inr ⟨h.symm, h'⟩)
  · exact Or.inr (Or.inl h)

instance : IsTrans Item itemLe := by
  constructor
  intro a b c hab hbc
  rcases hab with h1 | ⟨e1, k1⟩
  · rcases hbc with h2 | ⟨e2, _⟩
    · exact Or.inl (h1.trans h2)
    · exact Or.inl (e2 ▸ h1)
  · rcases hbc with h2 | ⟨e2, k2⟩
    · exact Or.inl (e1 ▸ h2)
    · exact Or.inr ⟨e1.trans e2, k1.trans k2⟩

def uploadItem (localBase keyBase : String) (reason : String) (ref : ItemRef) : Item :=
  { Action := ActionUpload
    LocalPath := goJoin localBase ref.Path
    S3Key := goJoin keyBase ref.Path
    Size := ref.Size
    Reason := reason
    Checksum := "" }

def deleteItem (keyBase : String) (ref : ItemRef) : Item :=
  { Action := ActionDelete
    LocalPath := ""
    S3Key := goJoin keyBase ref.Path
    Size := ref.Size
    Reason := "deleted locally"
    Checksum := "" }

/-- The NeedChecksum loop body: emit an upload only when the checksum map
has an entry for the path and its two checksums differ. -/
def needChecksumItem (localBase keyBase : String) (checksumMap : List ChecksumData)
    (ref : ItemRef) : Option Item :=
  match lookupChecksum checksumMap ref.Path with
  | some cs =>
    if cs.SourceChecksum ≠ cs.DestChecksum then
      some (uploadItem localBase keyBase "checksum differs" ref)
    else none
  | none => none

def Phase3GeneratePlan (phase1 : Phase1Result) (checksums : List ChecksumData)
    (localBase keyBase : String) : List Item :=
  let checksumMap := buildChecksumMap checksums
  let items :=
    phase1.NewItems.map (uploadItem localBase keyBase "new file")
    ++ phase1.SizeMismatch.map (uploadItem localBase keyBase "size differs")
    ++ phase1.NeedChecksum.filterMap (needChecksumItem localBase keyBase checksumMap)
    ++ phase1.DeletedItems.map (deleteItem keyBase)
  items.insertionSort itemLe

/-! ## Shell-pattern matcher (pkg/fnmatch, the Python-fnmatch port)

`Translate` converts a shell pattern to an anchored Go regular expression
string; `Match` compiles it (through a pattern-text cache whose hits return
the same compiled regex) and runs it.  The embedding factors Translate as a
scanner `translateScan` producing the emitted regex fragments followed by a
renderer that prints exactly the Go output string; the fragments' RE2
semantics (under the `(?s:^...$)` wrapper: full-string match, `.` matching
every character) is `elemsMatch`, and regex compilation succeeds exactly
when every fragment is valid RE2 (`(?!)` is rejected as unsupported Perl
syntax and a reversed character-class range is rejected), which
`elemValid` captures. -/

/-- A regex fragment emitted by Translate: `.*`, `.`, a quoted literal,
a character class `[...]`, or the (unreachable) `(?!)`. -/
inductive GlobElem where
  | star
  | anyChar
  | lit (c : Char)
  | cls (neg : Bool) (stuff : List Char)
  | never
  deriving Repr, DecidableEq

/-- Scan up to the first `]`, returning the part before it and the part
after it. -/
def classScan : List Char → Option (List Char × List Char)
  | [] => none
  | c :: t =>
    if c = ']' then some ([], t)
    else (classScan t).map (fun ab => (c :: ab.1, ab.2))

/-- The prefix Translate's class scan skips before looking for the closing
bracket: a leading `!`, then a `]` standing as the first class character. -/
def classSkip (l : List Char) : List Char × List Char :=
  match l with
  | [] => ([], [])
  | c :: t =>
    if c = '!' then
      match t with
      | [] => (['!'], [])
      | d :: t' => if d = ']' then (['!', ']'], t') else (['!'], t)
    else if c = ']' then ([']'], t)
    else ([], c :: t)

/-- The class-extent scan of Translate's `[` branch: skip the `!`/`]`
prefix, then find the closing `]`; `none` when there is no closing
bracket, otherwise the class content and the remainder. -/
def classSplit (l : List Char) : Option (List Char × List Char) :=
  (classScan (classSkip l).2).map (fun ab => ((classSkip l).1 ++ ab.1, ab.2))

/-- The fragment emitted for a bracketed class with content `stuff`:
empty content gives `(?!)`, `!` alone gives `.`, a leading `!` negates. -/
def classElem (stuff : List Char) : GlobElem :=
  if stuff = [] then .never
  else if stuff = ['!'] then .anyChar
  else
    match stuff with
    | '!' :: body => .cls true body
    | body => .cls false body

theorem classScan_length {l : List Char} :
    ∀ {a b}, classScan l = some (a, b) → b.length < l.length := by
  induction l with
  | nil => intro a b h; simp [classScan] at h
  | cons c t ih =>
    intro a b h
    rw [classScan] at h
    by_cases hc : c = ']'
    · rw [if_pos hc] at h
      cases h
      simp
    · rw [if_neg hc] at h
      rw [Option.map_eq_some'] at h
      obtain ⟨⟨a', b'⟩, h1, h2⟩ := h
      cases h2
      have := ih h1
      simp only [List.length_cons]
      omega

theorem classSkip_snd_length (l : List Char) : (classSkip l).2.length ≤ l.length := by
  rcases l with _ | ⟨c, t⟩
  · simp [classSkip]
  · rcases t with _ | ⟨d, t'⟩ <;>
      simp only [classSkip] <;> split_ifs <;> simp <;> omega

theorem classSplit_length {l a b} (h : classSplit l = some (a, b)) :
    b.length ≤ l.length := by
  rw [classSplit, Option.map_eq_some'] at h
  obtain ⟨⟨a', b'⟩, h1, h2⟩ := h
  rw [Prod.mk.injEq] at h2
  obtain ⟨h2a, rfl⟩ := h2
  have h3 := classScan_length h1
  have h4 := classSkip_snd_length l
  show b'.length ≤ l.length
  omega

/-- The scanning pass of Translate: consume a run of `*` as one `.*`,
`?` as `.`, a bracketed class (an unclosed `[` becomes the literal `[`
and scanning resumes right after it), and any other character as a
quoted literal. -/
def translateScan : List Char → List GlobElem
  | [] => []
  | '*' :: rest => .star :: translateScan (rest.dropWhile (· == '*'))
  | '?' :: rest => .anyChar :: translateScan rest
  | '[' :: rest =>
    match h : classSplit rest with
    | none => .lit '[' :: translateScan rest
    | some (stuff, rest') => classElem stuff :: translateScan rest'
  | c :: rest => .lit c :: translateScan rest
termination_by l => l.length
decreasing_by
  · simpa using Nat.lt_succ_of_le (List.dropWhile_sublist _).length_le
  · simp
  · simp
  · simpa using Nat.lt_succ_of_le (classSplit_length h)
  · simp

/-- Go regexp.QuoteMeta on one character. -/
def quoteMeta (c : Char) : String :=
  if ("\\.+*?()|[]{}^$".data.contains c) then String.mk ['\\', c] else String.mk [c]

/-- escapeForCharClass: escape backslash and `]` inside a class. -/
def escapeForCharClass : List Char → List Char
  | [] => []
  | c :: rest =>
    if c = '\\' ∨ c = ']' then '\\' :: c :: escapeForCharClass rest
    else c :: escapeForCharClass rest

def renderElem : GlobElem → String
  | .star => ".*"
  | .anyChar => "."
  | .lit c => quoteMeta c
  | .never => "(?!)"
  | .cls neg stuff =>
    "[" ++ (if neg then "^" else "") ++ String.mk (escapeForCharClass stuff) ++ "]"

/-- fnmatch.Translate: the regex string Go builds. -/
def Translate (pattern : String) : String :=
  "(?s:^" ++ String.join ((translateScan pattern.data).map renderElem) ++ "$)"

/-- One parsed item of an RE2 character class. -/
inductive ClassItem where
  | single (c : Char)
  | range (lo hi : Char)
  deriving Repr, DecidableEq

/-- RE2 parsing of the class content the renderer emits: `c-d` forms a
range (rejected when reversed), any other character — including `-` at
the start or end or right after a completed range — is a literal. -/
def parseClassItems : List Char → Option (List ClassItem)
  | c :: '-' :: d :: rest =>
    if c ≤ d then (parseClassItems rest).map (ClassItem.range c d :: ·) else none
  | c :: rest => (parseClassItems rest).map (ClassItem.single c :: ·)
  | [] => some []

def charInItems (items : List ClassItem) (c : Char) : Bool :=
  items.any fun i =>
    match i with
    | .single a => a == c
    | .range lo hi => lo ≤ c && c ≤ hi

/-- Whether a fragment compiles under RE2. -/
def elemValid : GlobElem → Bool
  | .cls _ stuff => (parseClassItems stuff).isSome
  | .never => false
  | _ => true

/-- Anchored matching semantics of a fragment list against a character
list: `.*` matches any character sequence, `.` any one character, a class
one character tested against its items, a literal itself. -/
def elemsMatch : List GlobElem → List Char → Bool
  | [], [] => true
  | [], _ :: _ => false
  | .star :: es, [] => elemsMatch es []
  | .star :: es, c :: cs => elemsMatch es (c :: cs) || elemsMatch (.star :: es) cs
  | .anyChar :: _, [] => false
  | .anyChar :: es, _ :: cs => elemsMatch es cs
  | .lit _ :: _, [] => false
  | .lit a :: es, c :: cs => (a == c) && elemsMatch es cs
  | .cls _ _ :: _, [] => false
  | .cls neg stuff :: es, c :: cs =>
    (match parseClassItems stuff with
     | some items => if neg then !(charInItems items c) else charInItems items c
     | none => false) && elemsMatch es cs
  | .never :: _, _ => false
termination_by es s => (s.length, es.length)

/-- fnmatch.Match: compile the translated pattern (errors exactly when a
fragment is invalid RE2) and test the name against it. -/
def fnmatchMatch (pattern name : String) : Except String Bool :=
  let elems := translateScan pattern.data
  if elems.all elemValid then .ok (elemsMatch elems name.data)
  else .error "failed to compile pattern"

/-- Modelled from the spec: the final, fnmatch-based IsExcluded of the
planner (`matches(matcher, path)` applied to each exclusion pattern in
turn, propagating a compile error and returning true on the first
match); the file defining it is absent from src, which holds only its
tests and the older doublestar-based variant of src/unnamed/part_004. -/
def IsExcluded (path : String) (patterns : List String) : Except String Bool :=
  match patterns with
  | [] => .ok false
  | p :: rest =>
    match fnmatchMatch p path with
    | .error e => .error e
    | .ok true => .ok true
    | .ok false => IsExcluded path rest

/-- The claim's collapsing operation, on the raw pattern text: every run
of consecutive `*` characters becomes a single `*`. -/
def collapseConsecutiveStars : List Char → List Char
  | [] => []
  | '*' :: rest => '*' :: collapseConsecutiveStars (rest.dropWhile (· == '*'))
  | c :: rest => c :: collapseConsecutiveStars rest
termination_by l => l.length
decreasing_by
  · simpa using Nat.lt_succ_of_le (List.dropWhile_sublist _).length_le
  · simp

/-- The amended collapsing operation: runs of `*` collapse only outside
bracketed character classes (a class's content is copied verbatim,
following the same class-extent scan as Translate). -/
def collapseStarsOutsideClasses : List Char → List Char
  | [] => []
  | '*' :: rest => '*' :: collapseStarsOutsideClasses (rest.dropWhile (· == '*'))
  | '?' :: rest => '?' :: collapseStarsOutsideClasses rest
  | '[' :: rest =>
    match h : classSplit rest with
    | none => '[' :: collapseStarsOutsideClasses rest
    | some (stuff, rest') => '[' :: (stuff ++ ']' :: collapseStarsOutsideClasses rest')
  | c :: rest => c :: collapseStarsOutsideClasses rest
termination_by l => l.length
decreasing_by
  · simpa using Nat.lt_succ_of_le (List.dropWhile_sublist _).length_le
  · simp
  · simp
  · simpa using Nat.lt_succ_of_le (classSplit_length h)
  · simp

/-! ## Parallel local tree scanner (parallelGatherLocalFiles)

The Go scanner drains a queue of directories with a worker pool: reading a
directory that fails with a permission error is skipped; any other read
error is recorded once (the scan's result is then that error and no item
list); files are recorded under their slash-joined relative path unless an
exclusion pattern matches (an exclusion-test error skips the file), and the
collected items are sorted by path.  Workers only append to the shared
accumulator and record the first error, so the embedding processes the
tree sequentially; which of several read errors is "first" is
scheduling-dependent in Go and the theorems only use that it is one of
them. -/

mutual

inductive FsEntry where
  | file (name : String) (size : Nat)
  | dir (name : String) (sub : FsDir)

inductive FsDir where
  | readable (entries : List FsEntry)
  | permDenied
  | readErr (msg : String)

end

/-- Relative path of an entry: the directory's relative path slash-joined
with the entry name (entry names contain no separators). -/
def relJoin (pfxRel name : String) : String :=
  if pfxRel = "" then name else pfxRel ++ "/" ++ name

mutual

def scanDir (excludes : List String) (pfxRel : String) :
    FsDir → List ItemMetadata × Option String
  | .readable entries => scanEntries excludes pfxRel entries
  | .permDenied => ([], none)
  | .readErr msg => ([], some msg)

def scanEntry (excludes : List String) (pfxRel : String) :
    FsEntry → List ItemMetadata × Option String
  | .file name size =>
    let relPath := relJoin pfxRel name
    match IsExcluded relPath excludes with
    | .error _ => ([], none)
    | .ok true => ([], none)
    | .ok false => ([⟨relPath, size, ""⟩], none)
  | .dir name sub => scanDir excludes (relJoin pfxRel name) sub

def scanEntries (excludes : List String) (pfxRel : String) :
    List FsEntry → List ItemMetadata × Option String
  | [] => ([], none)
  | e :: rest =>
    let r1 := scanEntry excludes pfxRel e
    let r2 := scanEntries excludes pfxRel rest
    (r1.1 ++ r2.1, r1.2 <|> r2.2)

end

def metaLe (a b : ItemMetadata) : Prop := a.Path ≤ b.Path

instance : DecidableRel metaLe := fun a b => inferInstanceAs (Decidable (a.Path ≤ b.Path))

instance : IsTotal ItemMetadata metaLe := ⟨fun a b => le_total a.Path b.Path⟩

instance : IsTrans ItemMetadata metaLe := ⟨fun _ _ _ h h' => le_trans h h'⟩

def parallelGatherLocalFiles (excludes : List String) (root : FsDir) :
    Except String (List ItemMetadata) :=
  let r := scanDir excludes "" root
  match r.2 with
  | some e => .error e
  | none => .ok (r.1.insertionSort metaLe)

mutual

/-- A directory read error is reached somewhere in the tree (children of
an unreadable or permission-denied directory are never read and carry no
entries in the model). -/
def dirHasReadErr : FsDir → Bool
  | .readable entries => entriesHaveReadErr entries
  | .permDenied => false
  | .readErr _ => true

def entryHasReadErr : FsEntry → Bool
  | .file _ _ => false
  | .dir _ sub => dirHasReadErr sub

def entriesHaveReadErr : List FsEntry → Bool
  | [] => false
  | e :: rest => entryHasReadErr e || entriesHaveReadErr rest

end

mutual

def dirReadErrMsgs : FsDir → List String
  | .readable entries => entriesReadErrMsgs entries
  | .permDenied => []
  | .readErr msg => [msg]

def entryReadErrMsgs : FsEntry → List String
  | .file _ _ => []
  | .dir _ sub => dirReadErrMsgs sub

def entriesReadErrMsgs : List FsEntry → List String
  | [] => []
  | e :: rest => entryReadErrMsgs e ++ entriesReadErrMsgs rest

end

/-! ## Multipart part sizing (pkg/s3client/aws_client.go) -/

def MultipartThreshold : Nat := 8 * 1024 * 1024

def DefaultPartSize : Nat := 16 * 1024 * 1024

def MinPartSize : Nat := 5 * 1024 * 1024

def MaxPartSize : Nat := 5 * 1024 * 1024 * 1024

def MaxParts : Nat := 10000

/-- calculatePartSize (int64 arithmetic on non-negative sizes; Go's
truncated division on them is Nat division). -/
def calculatePartSize (fileSize : Nat) : Nat :=
  let minPart := fileSize / MaxParts
  let partSize := ((minPart / (1024 * 1024)) + 1) * (1024 * 1024)
  let partSize := if partSize < DefaultPartSize then DefaultPartSize else partSize
  let partSize := if partSize < MinPartSize then MinPartSize else partSize
  let partSize := if partSize > MaxPartSize then MaxPartSize else partSize
  partSize

/-- Ceiling division, the number of parts a file of the given size needs. -/
def ceilDiv (a b : Nat) : Nat := (a + b - 1) / b

/-! ## Retry layer (internal/s3client/client.go)

An S3 call's error is modelled by the facets the classifier inspects: API
error with its code string, optional HTTP status, NotFound matching, and
the two network conditions tested with errors.Is.  A call under retry is an
oracle from the attempt number to that attempt's outcome. -/

structure S3Error where
  isApi : Bool
  code : String
  hasHttpStatus : Bool
  httpStatus : Nat
  isNotFound : Bool
  isDeadlineExceeded : Bool
  isUnexpectedEOF : Bool
  deriving Repr, DecidableEq

/-- The trailing network-condition check of isRetryableError. -/
def netRetryable (e : S3Error) : Bool :=
  e.isDeadlineExceeded || e.isUnexpectedEOF

/-- isRetryableError: recognized transient codes, else the 5xx range when
the API error exposes an HTTP status (returning directly from that check),
else the network conditions. -/
def isRetryableError (e : S3Error) : Bool :=
  if e.isApi then
    if e.code == "SlowDown" || e.code == "ServiceUnavailable"
        || e.code == "RequestTimeout" || e.code == "RequestTimeoutException" then
      true
    else if e.hasHttpStatus then
      decide (500 ≤ e.httpStatus) && decide (e.httpStatus < 600)
    else netRetryable e
  else netRetryable e

inductive WrappedError where
  | plain (e : S3Error)
  | maxRetriesExceeded (e : S3Error)
  deriving Repr, DecidableEq

/-- The shared retry loop shape of the *WithRetry methods
(`for attempt := 0; attempt <= maxRetries; attempt++`), returning the
outcome together with the number of attempts made; `checkNotFound` is the
extra NotFound early return that only headObjectWithRetry has.  Backoff
sleeps only delay execution and are not modelled. -/
def retryLoop {O : Type} (op : Nat → Except S3Error O) (checkNotFound : Bool) :
    Nat → Nat → Except WrappedError O × Nat
  | attempt, remaining =>
    match op attempt with
    | .ok o => (.ok o, attempt + 1)
    | .error e =>
      if checkNotFound && e.isNotFound then (.error (.plain e), attempt + 1)
      else if !(isRetryableError e) then (.error (.plain e), attempt + 1)
      else
        match remaining with
        | 0 => (.error (.maxRetriesExceeded e), attempt + 1)
        | r + 1 => retryLoop op checkNotFound (attempt + 1) r

/-- headObjectWithRetry: NotFound is returned immediately without retry. -/
def headObjectWithRetry {O : Type} (op : Nat → Except S3Error O) (maxRetries : Nat) :
    Except WrappedError O × Nat :=
  retryLoop op true 0 maxRetries

/-- putObjectWithRetry (the shape shared by the non-head retry wrappers). -/
def putObjectWithRetry {O : Type} (op : Nat → Except S3Error O) (maxRetries : Nat) :
    Except WrappedError O × Nat :=
  retryLoop op false 0 maxRetries

/-! ## Execution engine (Executor.Execute)

Execute allocates `results := make([]Result, len(items))` and starts one
goroutine per index under a semaphore; goroutine idx runs executeItem on
its own item and writes `results[idx] = Result{Item: itm, Error: err}`,
touching no other slot and never aborting the batch, so the final slice is
the pointwise image of the items regardless of scheduling; the per-item
upload/delete effects are oracles. -/

structure ExecResult where
  Item : Item
  Error : Option String
  deriving Repr, DecidableEq

/-- executeItem: dispatch on the action; unknown actions return nil. -/
def executeItem (uploadFile deleteObject : Item → Option String) (itm : Item) :
    Option String :=
  if itm.Action = ActionUpload then uploadFile itm
  else if itm.Action = ActionDelete then deleteObject itm
  else none

def ExecutorExecute (uploadFile deleteObject : Item → Option String)
    (items : List Item) : List ExecResult :=
  items.map (fun itm => ⟨itm, executeItem uploadFile deleteObject itm⟩)

/-! ## Content fingerprint (calculateFileChecksum, hash/crc64, base64)

The planner's crc64NVMETable is crc64.MakeTable(0x9a6c9329ac4bc9b5): entry
i is i put through eight reflected shift-xor rounds.  Updating streams each
byte through a table lookup; the digest starts at 0, is complemented before
and after, and the final Sum appends the eight big-endian bytes, which are
base64-encoded with the standard alphabet.  A file is a byte list; the
filesystem maps a path to its contents or `none` when open/read fails. -/

def crc64NVMEPoly : Nat := 0x9a6c9329ac4bc9b5

/-- One reflected CRC round: shift right, xor the polynomial on a set low
bit (all values stay below 2^64). -/
def crcBitStep (crc : Nat) : Nat :=
  if crc % 2 = 1 then (crc / 2) ^^^ crc64NVMEPoly else crc / 2

/-- crc64.MakeTable entry: eight rounds applied to the index. -/
def crcTableEntry (i : Nat) : Nat :=
  crcBitStep (crcBitStep (crcBitStep (crcBitStep
    (crcBitStep (crcBitStep (crcBitStep (crcBitStep i)))))))

/-- The 64-bit complement used by crc64's update. -/
def inv64 (x : Nat) : Nat := x ^^^ (2 ^ 64 - 1)

/-- crc64 update: complement, per byte `crc = tab[byte(crc)^v] ^ (crc>>8)`,
complement. -/
def crc64Update (crc : Nat) (p : List Nat) : Nat :=
  inv64 (p.foldl (fun c v => crcTableEntry ((c % 256) ^^^ v) ^^^ (c / 256)) (inv64 crc))

/-- The digest of a whole stream (crc64.New starts at 0). -/
def crc64Checksum (data : List Nat) : Nat := crc64Update 0 data

/-- Big-endian 8-byte serialization of Sum64 (the digest's Sum). -/
def sumBytes (x : Nat) : List Nat :=
  [x / 2 ^ 56 % 256, x / 2 ^ 48 % 256, x / 2 ^ 40 % 256, x / 2 ^ 32 % 256,
   x / 2 ^ 24 % 256, x / 2 ^ 16 % 256, x / 2 ^ 8 % 256, x % 256]

def base64Alphabet : List Char :=
  "ABCDEFGHIJKLMNOPQRSTUVWXYZabcdefghijklmnopqrstuvwxyz0123456789+/".data

def b64Char (i : Nat) : Char := base64Alphabet.getD i 'A'

/-- base64.StdEncoding.EncodeToString. -/
def base64Encode : List Nat → String
  | b0 :: b1 :: b2 :: rest =>
    String.mk [b64Char (b0 / 4), b64Char (b0 % 4 * 16 + b1 / 16),
      b64Char (b1 % 16 * 4 + b2 / 64), b64Char (b2 % 64)] ++ base64Encode rest
  | [b0, b1] =>
    String.mk [b64Char (b0 / 4), b64Char (b0 % 4 * 16 + b1 / 16),
      b64Char (b1 % 16 * 4), '=']
  | [b0] =>
    String.mk [b64Char (b0 / 4), b64Char (b0 % 4 * 16), '=', '=']
  | [] => ""

/-- calculateFileChecksum: open and stream the file through the CRC64-NVME
digest and base64-encode the eight sum bytes; opening or reading a file
that has disappeared or become unreadable returns the error. -/
def calculateFileChecksum (fs : String → Option (List Nat)) (path : String) :
    Except String String :=
  match fs path with
  | none => .error ("open " ++ path ++ " failed")
  | some data => .ok (base64Encode (sumBytes (crc64Checksum data)))


/-- Ceiling-division bound: with a positive divisor, at most k parts means
the size fits in k parts. -/
theorem ceilDiv_le_iff (a b k : Nat) (hb : 0 < b) : ceilDiv a b ≤ k ↔ a ≤ k * b := by
  rw [ceilDiv, Nat.div_le_iff_le_mul_add_pred hb, Nat.mul_comm k b]
  omega

/-! ## Theorems: execution engine (C4, C9) -/

/-- C4: the Execution Engine attempts every plan item regardless of other
items' outcomes — Execute returns exactly one result per input item, every
input item appears with the outcome of its own attempt, and a per-item
failure is recorded in that item's result without aborting or skipping any
other item (each result depends only on its own item). -/
theorem execute_attempts_every_item (uploadFile deleteObject : Item → Option String)
    (items : List Item) :
    (ExecutorExecute uploadFile deleteObject items).length = items.length ∧
    (∀ itm ∈ items,
      (⟨itm, executeItem uploadFile deleteObject itm⟩ : ExecResult) ∈
        ExecutorExecute uploadFile deleteObject items) ∧
    (∀ i (h : i < items.length),
      (ExecutorExecute uploadFile deleteObject items).get
          ⟨i, by simpa [ExecutorExecute] using h⟩ =
        ⟨items.get ⟨i, h⟩, executeItem uploadFile deleteObject (items.get ⟨i, h⟩)⟩) := by
  refine ⟨by simp [ExecutorExecute], ?_, ?_⟩
  · intro itm hm
    unfold ExecutorExecute
    exact List.mem_map_of_mem _ hm
  · intro i h
    simp [ExecutorExecute]

theorem execute_attempts_every_item_witness :
    (⟨⟨ActionDelete, "", "b/old.txt", 5, "deleted locally", ""⟩, none⟩ : ExecResult) ∈
      ExecutorExecute (fun _ => some "upload failed") (fun _ => none)
        [⟨ActionUpload, "/l/a.txt", "b/a.txt", 3, "new file", ""⟩,
         ⟨ActionDelete, "", "b/old.txt", 5, "deleted locally", ""⟩] := by
  have h := execute_attempts_every_item (fun _ => some "upload failed") (fun _ => none)
    [⟨ActionUpload, "/l/a.txt", "b/a.txt", 3, "new file", ""⟩,
     ⟨ActionDelete, "", "b/old.txt", 5, "deleted locally", ""⟩]
  have h2 := h.2.1 ⟨ActionDelete, "", "b/old.txt", 5, "deleted locally", ""⟩ (by decide)
  simpa [executeItem, ActionDelete, ActionUpload] using h2

/-- C9: Execute's result slice has exactly the input's length and the
result at index i carries the input item at index i (results[i].Item =
items[i]), although items complete in arbitrary order. -/
theorem execute_results_indexed_by_input (uploadFile deleteObject : Item → Option String)
    (items : List Item) :
    (ExecutorExecute uploadFile deleteObject items).length = items.length ∧
    (∀ i (h : i < items.length),
      ((ExecutorExecute uploadFile deleteObject items).get
          ⟨i, by simpa [ExecutorExecute] using h⟩).Item = items.get ⟨i, h⟩) := by
  refine ⟨by simp [ExecutorExecute], ?_⟩
  intro i h
  simp [ExecutorExecute]

theorem execute_results_indexed_by_input_witness :
    ((ExecutorExecute (fun _ => some "boom") (fun _ => none)
        [⟨ActionUpload, "/l/a.txt", "b/a.txt", 3, "new file", ""⟩,
         ⟨ActionUpload, "/l/b.txt", "b/b.txt", 4, "size differs", ""⟩]).get
      ⟨1, by decide⟩).Item =
      ⟨ActionUpload, "/l/b.txt", "b/b.txt", 4, "size differs", ""⟩ := by
  exact (execute_results_indexed_by_input (fun _ => some "boom") (fun _ => none)
    [⟨ActionUpload, "/l/a.txt", "b/a.txt", 3, "new file", ""⟩,
     ⟨ActionUpload, "/l/b.txt", "b/b.txt", 4, "size differs", ""⟩]).2 1 (by decide)

/-! ## Theorems: multipart part sizing (C5) -/

/-- C5 counterexample: at S = 10000 * 5GiB + 1 (≥ the 8 MiB threshold) the
computed part size is clamped to 5GiB and the resulting part count is
10001, so the claim's conjunction fails as stated. -/
theorem calculatePartSize_counterexample :
    MultipartThreshold ≤ 53687091200001 ∧
    ¬(MinPartSize ≤ calculatePartSize 53687091200001 ∧
      calculatePartSize 53687091200001 ≤ MaxPartSize ∧
      ceilDiv 53687091200001 (calculatePartSize 53687091200001) ≤ MaxParts) := by
  constructor
  · decide
  · intro hc
    have := hc.2.2
    norm_num [calculatePartSize, ceilDiv, MaxParts, MinPartSize, MaxPartSize,
      DefaultPartSize] at this

/-- C5 amended: for every file size S at or above the 8 MiB multipart
threshold the part size P satisfies 5MiB ≤ P ≤ 5GiB, and whenever S is at
most MaxParts * MaxPartSize (the largest total a 10000-part upload of
5 GiB parts can carry) also ceil(S/P) ≤ 10000; beyond that bound the 5 GiB
cap necessarily pushes the part count above 10000. -/
theorem calculatePartSize_bounds (S : Nat) (hS : MultipartThreshold ≤ S) :
    MinPartSize ≤ calculatePartSize S ∧ calculatePartSize S ≤ MaxPartSize ∧
    (1024 * 1024) ∣ calculatePartSize S ∧
    (S ≤ MaxParts * MaxPartSize → ceilDiv S (calculatePartSize S) ≤ MaxParts) := by
  have hpos : 0 < calculatePartSize S := by
    simp only [calculatePartSize, DefaultPartSize, MinPartSize, MaxPartSize, MaxParts]
    split_ifs <;> omega
  refine ⟨?_, ?_, ?_, ?_⟩
  · simp only [calculatePartSize, DefaultPartSize, MinPartSize, MaxPartSize, MaxParts]
    split_ifs <;> omega
  · simp only [calculatePartSize, DefaultPartSize, MinPartSize, MaxPartSize, MaxParts]
    split_ifs <;> omega
  · simp only [calculatePartSize, DefaultPartSize, MinPartSize, MaxPartSize, MaxParts]
    split_ifs
    all_goals omega
  · intro hcap
    rw [ceilDiv_le_iff _ _ _ hpos]
    revert hcap
    simp only [calculatePartSize, DefaultPartSize, MinPartSize, MaxPartSize, MaxParts]
    split_ifs <;> intro hcap <;> omega

theorem calculatePartSize_bounds_witness :
    MinPartSize ≤ calculatePartSize (100 * 1024 * 1024) ∧
    calculatePartSize (100 * 1024 * 1024) ≤ MaxPartSize ∧
    (1024 * 1024) ∣ calculatePartSize (100 * 1024 * 1024) ∧
    (100 * 1024 * 1024 ≤ MaxParts * MaxPartSize →
      ceilDiv (100 * 1024 * 1024) (calculatePartSize (100 * 1024 * 1024)) ≤ MaxParts) :=
  calculatePartSize_bounds (100 * 1024 * 1024) (by decide)

/-! ## Theorems: retry layer (C6) -/

/-- A recognized transient error code (throttling/SlowDown,
ServiceUnavailable, RequestTimeout). -/
def isTransientCode (e : S3Error) : Prop :=
  e.isApi = true ∧ (e.code = "SlowDown" ∨ e.code = "ServiceUnavailable"
    ∨ e.code = "RequestTimeout" ∨ e.code = "RequestTimeoutException")

/-- A 5xx-class API response. -/
def is5xxResponse (e : S3Error) : Prop :=
  e.isApi = true ∧ e.hasHttpStatus = true ∧ 500 ≤ e.httpStatus ∧ e.httpStatus < 600

/-- A network timeout or unexpected-EOF condition. -/
def isNetworkCondition (e : S3Error) : Prop :=
  e.isDeadlineExceeded = true ∨ e.isUnexpectedEOF = true

theorem isRetryableError_classified {e : S3Error} (h : isRetryableError e = true) :
    isTransientCode e ∨ is5xxResponse e ∨ isNetworkCondition e := by
  rw [isRetryableError] at h
  rw [isTransientCode, is5xxResponse, isNetworkCondition]
  by_cases hapi : e.isApi = true
  · rw [if_pos hapi] at h
    by_cases hc : (e.code == "SlowDown" || e.code == "ServiceUnavailable"
        || e.code == "RequestTimeout" || e.code == "RequestTimeoutException") = true
    · left
      refine ⟨hapi, ?_⟩
      simp only [Bool.or_eq_true, beq_iff_eq] at hc
      tauto
    · rw [if_neg hc] at h
      by_cases hs : e.hasHttpStatus = true
      · rw [if_pos hs] at h
        right; left
        simp only [Bool.and_eq_true, decide_eq_true_eq] at h
        exact ⟨hapi, hs, h.1, h.2⟩
      · rw [if_neg hs] at h
        right; right
        simpa [netRetryable] using h
  · rw [if_neg hapi] at h
    right; right
    simpa [netRetryable] using h

theorem retryLoop_attempts_eq_one {O : Type} (op : Nat → Except S3Error O)
    (cnf : Bool) (a r : Nat)
    (h : ∀ e, op a = .error e → (cnf = true ∧ e.isNotFound = true) ∨ isRetryableError e = false) :
    (retryLoop op cnf a r).2 = a + 1 := by
  rw [retryLoop]
  match hop : op a with
  | .ok o => rfl
  | .error e =>
    rcases h e hop with ⟨h1, h2⟩ | h1
    · simp [h1, h2]
    · by_cases hnf : cnf && e.isNotFound
      · simp [hnf]
      · simp [hnf, h1]

/-- The exhaustion shape of the retry loop: when every attempt that can run
fails with a retryable non-NotFound error, the loop runs them all and wraps
the error of the last attempt. -/
theorem retryLoop_exhausts {O : Type} (op : Nat → Except S3Error O) (cnf : Bool) :
    ∀ r a, (∀ i, a ≤ i → i ≤ a + r → ∃ e, op i = .error e ∧ e.isNotFound = false ∧
        isRetryableError e = true) →
      ∀ e, op (a + r) = .error e →
        retryLoop op cnf a r = (.error (.maxRetriesExceeded e), a + r + 1) := by
  intro r
  induction r with
  | zero =>
    intro a h e hop
    rw [retryLoop]
    obtain ⟨e', h1, h2, h3⟩ := h a le_rfl (by omega)
    rw [Nat.add_zero] at hop
    rw [hop] at h1
    cases h1
    simp [hop, h2, h3]
  | succ r ih =>
    intro a h e hop
    rw [retryLoop]
    obtain ⟨e', h1, h2, h3⟩ := h a le_rfl (by omega)
    rw [h1]
    have ihx := ih (a + 1) (fun i hi1 hi2 => h i (by omega) (by omega)) e
      (by rw [show a + 1 + r = a + (r + 1) by omega]; exact hop)
    simp only [h2, h3, Bool.and_false, Bool.false_eq_true, if_false,
      Bool.not_true, if_neg]
    rw [ihx]
    have harith : a + 1 + r + 1 = a + (r + 1) + 1 := by omega
    rw [harith]

/-- C6: a call wrapped by the retry layer is retried only when its error is
a recognized transient code, a 5xx-class response, or a network
timeout/unexpected-EOF condition (an unclassified first error ends the
loop after a single attempt, for the head wrapper and the shape shared by
the other wrappers alike); a NotFound error on the head lookup is returned
immediately without any retry; and when every attempt up to the maximum
fails with a retryable error the last underlying error is returned wrapped
in the retry-exhausted marker. -/
theorem retry_policy {O : Type} (op : Nat → Except S3Error O) (maxRetries : Nat) :
    (∀ e, op 0 = .error e →
      ¬(isTransientCode e ∨ is5xxResponse e ∨ isNetworkCondition e) →
      (headObjectWithRetry op maxRetries).2 = 1 ∧
      (putObjectWithRetry op maxRetries).2 = 1) ∧
    (∀ e, op 0 = .error e → e.isNotFound = true →
      headObjectWithRetry op maxRetries = (.error (.plain e), 1)) ∧
    ((∀ i, i ≤ maxRetries → ∃ e, op i = .error e ∧ e.isNotFound = false ∧
        isRetryableError e = true) →
      ∀ e, op maxRetries = .error e →
        headObjectWithRetry op maxRetries =
          (.error (.maxRetriesExceeded e), maxRetries + 1)) := by
  refine ⟨?_, ?_, ?_⟩
  · intro e hop hncls
    have hret : isRetryableError e = false := by
      by_contra hr
      exact hncls (isRetryableError_classified (by simpa using hr))
    constructor <;>
      exact retryLoop_attempts_eq_one op _ 0 maxRetries
        (fun e' hop' => by rw [hop] at hop'; cases hop'; exact Or.inr hret)
  · intro e hop hnf
    rw [headObjectWithRetry, retryLoop, hop]
    simp [hnf]
  · intro hall e hop
    have := retryLoop_exhausts op true maxRetries 0
      (fun i hi1 hi2 => hall i (by omega)) e (by simpa using hop)
    simpa using this

theorem retry_policy_witness :
    (headObjectWithRetry
        (fun _ => (.error ⟨true, "NotFound", true, 404, true, false, false⟩ : Except S3Error Unit)) 5 =
      (.error (.plain ⟨true, "NotFound", true, 404, true, false, false⟩), 1)) ∧
    (headObjectWithRetry
        (fun _ => (.error ⟨true, "ValidationError", true, 400, false, false, false⟩ : Except S3Error Unit)) 5).2 = 1 ∧
    (headObjectWithRetry
        (fun _ => (.error ⟨true, "SlowDown", true, 503, false, false, false⟩ : Except S3Error Unit)) 2 =
      (.error (.maxRetriesExceeded ⟨true, "SlowDown", true, 503, false, false, false⟩), 3)) := by
  refine ⟨?_, ?_, ?_⟩
  · exact (retry_policy
      (fun _ => (.error ⟨true, "NotFound", true, 404, true, false, false⟩ : Except S3Error Unit)) 5).2.1
      _ rfl rfl
  · exact ((retry_policy
      (fun _ => (.error ⟨true, "ValidationError", true, 400, false, false, false⟩ : Except S3Error Unit)) 5).1
      _ rfl (by rw [isTransientCode, is5xxResponse, isNetworkCondition]; decide)).1
  · exact (retry_policy
      (fun _ => (.error ⟨true, "SlowDown", true, 503, false, false, false⟩ : Except S3Error Unit)) 2).2.2
      (fun i _ => ⟨_, rfl, rfl, by decide⟩) _ rfl

/-! ## Theorems: Phase 3 plan generation (C2, C10) -/

/-- C2: the generated plan consists of exactly one Upload with reason "new
file" per NewItems entry, one Upload with reason "size differs" per
SizeMismatch entry, one Upload with reason "checksum differs" per
NeedChecksum entry whose matched checksum data shows differing source and
dest checksums (matching or unmatched entries produce nothing), and one
Delete with reason "deleted locally" per DeletedItems entry; and it is
sorted by action then remote key, where Delete precedes Upload in string
order. -/
theorem phase3_plan_characterization (phase1 : Phase1Result)
    (checksums : List ChecksumData) (localBase keyBase : String) :
    (Phase3GeneratePlan phase1 checksums localBase keyBase).Perm
      (phase1.NewItems.map (uploadItem localBase keyBase "new file")
        ++ phase1.SizeMismatch.map (uploadItem localBase keyBase "size differs")
        ++ phase1.NeedChecksum.filterMap
            (needChecksumItem localBase keyBase (buildChecksumMap checksums))
        ++ phase1.DeletedItems.map (deleteItem keyBase)) ∧
    (Phase3GeneratePlan phase1 checksums localBase keyBase).Sorted itemLe ∧
    ActionDelete < ActionUpload := by
  refine ⟨List.perm_insertionSort itemLe _, List.sorted_insertionSort itemLe _, ?_⟩
  rw [ActionDelete, ActionUpload, String.lt_iff_toList_lt]
  decide

theorem mem_csMapInsert {m : List ChecksumData} {x y : ChecksumData}
    (h : y ∈ csMapInsert m x) : y ∈ m ∨ y = x := by
  rw [csMapInsert] at h
  split at h
  · rw [List.mem_map] at h
    obtain ⟨z, hz, hzy⟩ := h
    by_cases hp : z.ItemRef.Path = x.ItemRef.Path
    · rw [if_pos hp] at hzy
      exact Or.inr hzy.symm
    · rw [if_neg hp] at hzy
      exact Or.inl (hzy ▸ hz)
  · rcases List.mem_append.mp h with h1 | h1
    · exact Or.inl h1
    · simp only [List.mem_singleton] at h1
      exact Or.inr h1

theorem mem_foldl_csMapInsert :
    ∀ (l acc : List ChecksumData), ∀ z ∈ l.foldl csMapInsert acc, z ∈ acc ∨ z ∈ l := by
  intro l
  induction l with
  | nil => intro acc z hz; exact Or.inl hz
  | cons x xs ih =>
    intro acc z hz
    simp only [List.foldl_cons] at hz
    rcases ih (csMapInsert acc x) z hz with h1 | h1
    · rcases mem_csMapInsert h1 with h2 | h2
      · exact Or.inl h2
      · exact Or.inr (by simp [h2])
    · exact Or.inr (List.mem_cons_of_mem _ h1)

theorem mem_buildChecksumMap {checksums : List ChecksumData} {y : ChecksumData}
    (h : y ∈ buildChecksumMap checksums) : y ∈ checksums := by
  rw [buildChecksumMap] at h
  rcases mem_foldl_csMapInsert checksums [] y h with h1 | h1
  · simp at h1
  · exact h1

/-- C10: a NeedChecksum entry whose path has no entry in the checksum data
produces nothing at all — the plan is the same as if the entry were
absent: no Upload, no Delete, and no error (the generator is total). -/
theorem phase3_unmatched_needchecksum_dropped (phase1 : Phase1Result)
    (checksums : List ChecksumData) (localBase keyBase : String)
    (l1 l2 : List ItemRef) (ref : ItemRef)
    (h : ∀ cs ∈ checksums, cs.ItemRef.Path ≠ ref.Path) :
    Phase3GeneratePlan { phase1 with NeedChecksum := l1 ++ ref :: l2 }
        checksums localBase keyBase =
      Phase3GeneratePlan { phase1 with NeedChecksum := l1 ++ l2 }
        checksums localBase keyBase := by
  have hnone : lookupChecksum (buildChecksumMap checksums) ref.Path = none := by
    rw [lookupChecksum, List.find?_eq_none]
    intro cs hcs
    have hmem := mem_buildChecksumMap hcs
    have hne := h cs hmem
    simpa using hne
  have hdrop : needChecksumItem localBase keyBase (buildChecksumMap checksums) ref = none := by
    rw [needChecksumItem, hnone]
  simp only [Phase3GeneratePlan, List.filterMap_append, List.filterMap_cons, hdrop]

/-! ## Theorems: Phase 1 partition (C1) -/

theorem buildPathMap_eq_self {l : List ItemMetadata}
    (h : (l.map ItemMetadata.Path).Nodup) : buildPathMap l = l := by
  rw [buildPathMap]
  suffices hgen : ∀ (xs acc : List ItemMetadata),
      ((acc.map ItemMetadata.Path) ++ (xs.map ItemMetadata.Path)).Nodup →
      xs.foldl mapInsert acc = acc ++ xs by
    simpa using hgen l [] (by simpa using h)
  intro xs
  induction xs with
  | nil => intro acc hacc; simp
  | cons x rest ih =>
    intro acc hacc
    have hn : ¬ acc.any (fun y => y.Path == x.Path) = true := by
      intro hcontra
      rw [List.any_eq_true] at hcontra
      obtain ⟨y, hy, hyx⟩ := hcontra
      rw [beq_iff_eq] at hyx
      have h1 : x.Path ∈ acc.map ItemMetadata.Path := by
        rw [List.mem_map]; exact ⟨y, hy, hyx⟩
      have h2 : x.Path ∈ x.Path :: rest.map ItemMetadata.Path := List.mem_cons_self _ _
      have hdisj := List.disjoint_of_nodup_append hacc
      exact hdisj h1 (by simpa using h2)
    have hstep : mapInsert acc x = acc ++ [x] := by
      rw [mapInsert, if_neg hn]
    rw [List.foldl_cons, hstep, ih (acc ++ [x]) (by simpa using hacc)]
    simp

theorem lookupPath_eq_none_iff {l : List ItemMetadata} {p : String} :
    lookupPath l p = none ↔ ∀ s ∈ l, s.Path ≠ p := by
  rw [lookupPath, List.find?_eq_none]
  constructor
  · intro h s hs
    have := h s hs
    simpa using this
  · intro h s hs
    simpa using h s hs

theorem lookupPath_eq_some_of_mem {l : List ItemMetadata} {p : String} {s : ItemMetadata}
    (h : (l.map ItemMetadata.Path).Nodup) (hmem : s ∈ l) (hp : s.Path = p) :
    lookupPath l p = some s := by
  induction l with
  | nil => simp at hmem
  | cons y rest ih =>
    rw [lookupPath, List.find?_cons]
    by_cases hy : y.Path = p
    · simp only [hy, beq_self_eq_true]
      rcases List.mem_cons.mp hmem with rfl | hmem'
      · rfl
      · exfalso
        have : p ∈ rest.map ItemMetadata.Path := by
          rw [List.mem_map]; exact ⟨s, hmem', hp⟩
        rw [List.map_cons, List.nodup_cons, hy] at h
        exact h.1 this
    · have hne : (y.Path == p) = false := beq_eq_false_iff_ne.mpr hy
      rw [hne]
      rcases List.mem_cons.mp hmem with rfl | hmem'
      · exact absurd hp hy
      · exact ih (by rw [List.map_cons, List.nodup_cons] at h; exact h.2) hmem'

theorem lookupPath_mem_and_path {l : List ItemMetadata} {p : String} {s : ItemMetadata}
    (h : lookupPath l p = some s) : s ∈ l ∧ s.Path = p := by
  refine ⟨List.mem_of_find?_eq_some h, ?_⟩
  have := List.find?_some h
  simpa using this

theorem mem_sortItemRefs {r : ItemRef} {X : List ItemRef} :
    r ∈ sortItemRefs X ↔ r ∈ X :=
  (List.perm_insertionSort refLe X).mem_iff

theorem classifyNew_eq_some {m : List ItemMetadata} {s : ItemMetadata} {r : ItemRef} :
    classifyNew m s = some r ↔ lookupPath m s.Path = none ∧ r = ⟨s.Path, s.Size⟩ := by
  rw [classifyNew]
  cases h : lookupPath m s.Path <;> simp [eq_comm]

theorem classifySizeMismatch_eq_some {m : List ItemMetadata} {s : ItemMetadata}
    {r : ItemRef} :
    classifySizeMismatch m s = some r ↔
      ∃ d, lookupPath m s.Path = some d ∧ s.Size ≠ d.Size ∧ r = ⟨s.Path, s.Size⟩ := by
  rw [classifySizeMismatch]
  cases h : lookupPath m s.Path with
  | none => simp
  | some d =>
    by_cases hsz : s.Size ≠ d.Size <;> simp [hsz, eq_comm]

theorem classifyIdentical_eq_some {m : List ItemMetadata} {s : ItemMetadata}
    {r : ItemRef} :
    classifyIdentical m s = some r ↔
      ∃ d, lookupPath m s.Path = some d ∧ s.Size = d.Size ∧
        (d.Checksum ≠ "" ∧ s.Checksum ≠ "" ∧ s.Checksum = d.Checksum) ∧
        r = ⟨s.Path, s.Size⟩ := by
  rw [classifyIdentical]
  cases h : lookupPath m s.Path with
  | none => simp
  | some d =>
    by_cases hsz : s.Size ≠ d.Size
    · simp [hsz]
    · by_cases hck : d.Checksum ≠ "" ∧ s.Checksum ≠ "" ∧ s.Checksum = d.Checksum <;>
        simp [hsz, hck, eq_comm] <;> tauto

theorem classifyNeedChecksum_eq_some {m : List ItemMetadata} {s : ItemMetadata}
    {r : ItemRef} :
    classifyNeedChecksum m s = some r ↔
      ∃ d, lookupPath m s.Path = some d ∧ s.Size = d.Size ∧
        ¬(d.Checksum ≠ "" ∧ s.Checksum ≠ "" ∧ s.Checksum = d.Checksum) ∧
        r = ⟨s.Path, s.Size⟩ := by
  rw [classifyNeedChecksum]
  cases h : lookupPath m s.Path with
  | none => simp
  | some d =>
    by_cases hsz : s.Size ≠ d.Size
    · simp [hsz]
    · by_cases hck : d.Checksum ≠ "" ∧ s.Checksum ≠ "" ∧ s.Checksum = d.Checksum <;>
        simp [hsz, hck, eq_comm] <;> tauto

theorem mem_newItems_iff {source dest : List ItemMetadata} {del : Bool}
    (hs : (source.map ItemMetadata.Path).Nodup) (hd : (dest.map ItemMetadata.Path).Nodup)
    (r : ItemRef) :
    r ∈ (Phase1Compare source dest del).NewItems ↔
      (∃ s, lookupPath source r.Path = some s ∧ r.Size = s.Size) ∧
      lookupPath dest r.Path = none := by
  rw [Phase1Compare]
  simp only [sortPhase1Result, buildPathMap_eq_self hs, buildPathMap_eq_self hd]
  rw [mem_sortItemRefs, List.mem_filterMap]
  constructor
  · rintro ⟨s, hmem, hcls⟩
    obtain ⟨hnone, rfl⟩ := classifyNew_eq_some.mp hcls
    exact ⟨⟨s, lookupPath_eq_some_of_mem hs hmem rfl, rfl⟩, hnone⟩
  · rintro ⟨⟨s, hlook, hsz⟩, hnone⟩
    obtain ⟨hmem, hpath⟩ := lookupPath_mem_and_path hlook
    refine ⟨s, hmem, classifyNew_eq_some.mpr ⟨by rw [hpath]; exact hnone, ?_⟩⟩
    cases r
    simp_all

theorem mem_sizeMismatch_iff {source dest : List ItemMetadata} {del : Bool}
    (hs : (source.map ItemMetadata.Path).Nodup) (hd : (dest.map ItemMetadata.Path).Nodup)
    (r : ItemRef) :
    r ∈ (Phase1Compare source dest del).SizeMismatch ↔
      ∃ s d, lookupPath source r.Path = some s ∧ lookupPath dest r.Path = some d ∧
        r.Size = s.Size ∧ s.Size ≠ d.Size := by
  rw [Phase1Compare]
  simp only [sortPhase1Result, buildPathMap_eq_self hs, buildPathMap_eq_self hd]
  rw [mem_sortItemRefs, List.mem_filterMap]
  constructor
  · rintro ⟨s, hmem, hcls⟩
    obtain ⟨d, hld, hsz, rfl⟩ := classifySizeMismatch_eq_some.mp hcls
    exact ⟨s, d, lookupPath_eq_some_of_mem hs hmem rfl, hld, rfl, hsz⟩
  · rintro ⟨s, d, hls, hld, hsz, hne⟩
    obtain ⟨hmem, hpath⟩ := lookupPath_mem_and_path hls
    refine ⟨s, hmem, classifySizeMismatch_eq_some.mpr ⟨d, by rw [hpath]; exact hld, hne, ?_⟩⟩
    cases r
    simp_all

theorem mem_identical_iff {source dest : List ItemMetadata} {del : Bool}
    (hs : (source.map ItemMetadata.Path).Nodup) (hd : (dest.map ItemMetadata.Path).Nodup)
    (r : ItemRef) :
    r ∈ (Phase1Compare source dest del).Identical ↔
      ∃ s d, lookupPath source r.Path = some s ∧ lookupPath dest r.Path = some d ∧
        r.Size = s.Size ∧ s.Size = d.Size ∧
        d.Checksum ≠ "" ∧ s.Checksum ≠ "" ∧ s.Checksum = d.Checksum := by
  rw [Phase1Compare]
  simp only [sortPhase1Result, buildPathMap_eq_self hs, buildPathMap_eq_self hd]
  rw [mem_sortItemRefs, List.mem_filterMap]
  constructor
  · rintro ⟨s, hmem, hcls⟩
    obtain ⟨d, hld, hsz, hck, rfl⟩ := classifyIdentical_eq_some.mp hcls
    exact ⟨s, d, lookupPath_eq_some_of_mem hs hmem rfl, hld, rfl, hsz, hck.1, hck.2.1, hck.2.2⟩
  · rintro ⟨s, d, hls, hld, hsz, hsd, hck1, hck2, hck3⟩
    obtain ⟨hmem, hpath⟩ := lookupPath_mem_and_path hls
    refine ⟨s, hmem,
      classifyIdentical_eq_some.mpr ⟨d, by rw [hpath]; exact hld, hsd, ⟨hck1, hck2, hck3⟩, ?_⟩⟩
    cases r
    simp_all

theorem mem_needChecksum_iff {source dest : List ItemMetadata} {del : Bool}
    (hs : (source.map ItemMetadata.Path).Nodup) (hd : (dest.map ItemMetadata.Path).Nodup)
    (r : ItemRef) :
    r ∈ (Phase1Compare source dest del).NeedChecksum ↔
      ∃ s d, lookupPath source r.Path = some s ∧ lookupPath dest r.Path = some d ∧
        r.Size = s.Size ∧ s.Size = d.Size ∧
        ¬(d.Checksum ≠ "" ∧ s.Checksum ≠ "" ∧ s.Checksum = d.Checksum) := by
  rw [Phase1Compare]
  simp only [sortPhase1Result, buildPathMap_eq_self hs, buildPathMap_eq_self hd]
  rw [mem_sortItemRefs, List.mem_filterMap]
  constructor
  · rintro ⟨s, hmem, hcls⟩
    obtain ⟨d, hld, hsz, hck, rfl⟩ := classifyNeedChecksum_eq_some.mp hcls
    exact ⟨s, d, lookupPath_eq_some_of_mem hs hmem rfl, hld, rfl, hsz, hck⟩
  · rintro ⟨s, d, hls, hld, hsz, hsd, hck⟩
    obtain ⟨hmem, hpath⟩ := lookupPath_mem_and_path hls
    refine ⟨s, hmem,
      classifyNeedChecksum_eq_some.mpr ⟨d, by rw [hpath]; exact hld, hsd, hck, ?_⟩⟩
    cases r
    simp_all

theorem mem_deletedItems_iff {source dest : List ItemMetadata} {del : Bool}
    (hs : (source.map ItemMetadata.Path).Nodup) (hd : (dest.map ItemMetadata.Path).Nodup)
    (r : ItemRef) :
    r ∈ (Phase1Compare source dest del).DeletedItems ↔
      del = true ∧ (∃ d, lookupPath dest r.Path = some d ∧ r.Size = d.Size) ∧
      lookupPath source r.Path = none := by
  rw [Phase1Compare]
  simp only [sortPhase1Result, buildPathMap_eq_self hs, buildPathMap_eq_self hd]
  rw [mem_sortItemRefs]
  cases del with
  | false => simp
  | true =>
    rw [if_pos rfl, List.mem_filterMap]
    simp only [true_and]
    constructor
    · rintro ⟨d, hmem, hcls⟩
      rcases hlk : lookupPath source d.Path with _ | s
      · rw [hlk] at hcls
        cases hcls
        exact ⟨⟨d, lookupPath_eq_some_of_mem hd hmem rfl, rfl⟩, hlk⟩
      · rw [hlk] at hcls
        cases hcls
    · rintro ⟨⟨d, hld, hsz⟩, hnone⟩
      obtain ⟨hmem, hpath⟩ := lookupPath_mem_and_path hld
      refine ⟨d, hmem, ?_⟩
      rw [hpath, hnone]
      cases r
      simp_all

theorem sortItemRefs_sorted (X : List ItemRef) : (sortItemRefs X).Sorted refLe :=
  List.sorted_insertionSort refLe X

theorem phase1_buckets_sorted (source dest : List ItemMetadata) (del : Bool) :
    (Phase1Compare source dest del).NewItems.Sorted refLe ∧
    (Phase1Compare source dest del).DeletedItems.Sorted refLe ∧
    (Phase1Compare source dest del).SizeMismatch.Sorted refLe ∧
    (Phase1Compare source dest del).NeedChecksum.Sorted refLe ∧
    (Phase1Compare source dest del).Identical.Sorted refLe := by
  rw [Phase1Compare]
  simp only [sortPhase1Result]
  exact ⟨sortItemRefs_sorted _, sortItemRefs_sorted _, sortItemRefs_sorted _,
    sortItemRefs_sorted _, sortItemRefs_sorted _⟩

theorem filterMap_paths_sublist (f : ItemMetadata → Option ItemRef)
    (hf : ∀ s r, f s = some r → r.Path = s.Path) (l : List ItemMetadata) :
    ((l.filterMap f).map (fun r => r.Path)).Sublist (l.map ItemMetadata.Path) := by
  induction l with
  | nil => simp
  | cons x xs ih =>
    rw [List.filterMap_cons]
    cases hx : f x with
    | none =>
      rw [List.map_cons]
      exact ih.cons _
    | some r =>
      rw [List.map_cons, List.map_cons, hf x r hx]
      exact ih.cons₂ _

theorem sortItemRefs_paths_nodup {X : List ItemRef}
    (h : (X.map (fun r => r.Path)).Nodup) :
    ((sortItemRefs X).map (fun r => r.Path)).Nodup :=
  (((List.perm_insertionSort refLe X).map (fun r => r.Path)).nodup_iff).mpr h

theorem phase1_buckets_paths_nodup {source dest : List ItemMetadata} {del : Bool}
    (hs : (source.map ItemMetadata.Path).Nodup) (hd : (dest.map ItemMetadata.Path).Nodup) :
    ((Phase1Compare source dest del).NewItems.map (fun r => r.Path)).Nodup ∧
    ((Phase1Compare source dest del).DeletedItems.map (fun r => r.Path)).Nodup ∧
    ((Phase1Compare source dest del).SizeMismatch.map (fun r => r.Path)).Nodup ∧
    ((Phase1Compare source dest del).NeedChecksum.map (fun r => r.Path)).Nodup ∧
    ((Phase1Compare source dest del).Identical.map (fun r => r.Path)).Nodup := by
  rw [Phase1Compare]
  simp only [sortPhase1Result, buildPathMap_eq_self hs, buildPathMap_eq_self hd]
  refine ⟨?_, ?_, ?_, ?_, ?_⟩
  · refine sortItemRefs_paths_nodup (hs.sublist (filterMap_paths_sublist _ ?_ _))
    intro s r hr
    obtain ⟨_, rfl⟩ := classifyNew_eq_some.mp hr
    rfl
  · cases del with
    | false => simp [sortItemRefs]
    | true =>
      rw [if_pos rfl]
      refine sortItemRefs_paths_nodup (hd.sublist (filterMap_paths_sublist _ ?_ _))
      intro s r hr
      rcases hlk : lookupPath source s.Path with _ | s'
      · rw [hlk] at hr
        cases hr
        rfl
      · rw [hlk] at hr
        cases hr
  · refine sortItemRefs_paths_nodup (hs.sublist (filterMap_paths_sublist _ ?_ _))
    intro s r hr
    obtain ⟨d, _, _, rfl⟩ := classifySizeMismatch_eq_some.mp hr
    rfl
  · refine sortItemRefs_paths_nodup (hs.sublist (filterMap_paths_sublist _ ?_ _))
    intro s r hr
    obtain ⟨d, _, _, _, rfl⟩ := classifyNeedChecksum_eq_some.mp hr
    rfl
  · refine sortItemRefs_paths_nodup (hs.sublist (filterMap_paths_sublist _ ?_ _))
    intro s r hr
    obtain ⟨d, _, _, _, rfl⟩ := classifyIdentical_eq_some.mp hr
    rfl

theorem countP_path_eq_one {B : List ItemRef} {p : String}
    (hn : (B.map (fun r => r.Path)).Nodup) (hmem : ∃ r ∈ B, r.Path = p) :
    B.countP (fun r => r.Path == p) = 1 := by
  obtain ⟨r, hr, rfl⟩ := hmem
  have h1 : B.countP (fun x => x.Path == r.Path) =
      (B.map (fun x => x.Path)).count r.Path := by
    rw [List.count, List.countP_map]
    rfl
  rw [h1]
  exact List.count_eq_one_of_mem hn (List.mem_map_of_mem _ hr)

theorem countP_path_eq_zero {B : List ItemRef} {p : String}
    (h : ∀ r ∈ B, r.Path ≠ p) : B.countP (fun r => r.Path == p) = 0 := by
  rw [List.countP_eq_zero]
  intro r hr
  simpa using h r hr

theorem phase1_local_exactly_one {source dest : List ItemMetadata} {del : Bool}
    (hs : (source.map ItemMetadata.Path).Nodup) (hd : (dest.map ItemMetadata.Path).Nodup) :
    ∀ s ∈ source,
      ((Phase1Compare source dest del).NewItems
        ++ (Phase1Compare source dest del).SizeMismatch
        ++ (Phase1Compare source dest del).NeedChecksum
        ++ (Phase1Compare source dest del).Identical).countP
          (fun r => r.Path == s.Path) = 1 := by
  intro s hmem
  obtain ⟨hnN, hnD, hnM, hnC, hnI⟩ := @phase1_buckets_paths_nodup source dest del hs hd
  have hlks : lookupPath source s.Path = some s := lookupPath_eq_some_of_mem hs hmem rfl
  simp only [List.countP_append]
  rcases hlkd : lookupPath dest s.Path with _ | d
  · have cN : (Phase1Compare source dest del).NewItems.countP
        (fun r => r.Path == s.Path) = 1 :=
      countP_path_eq_one hnN
        ⟨⟨s.Path, s.Size⟩, (mem_newItems_iff hs hd _).mpr ⟨⟨s, hlks, rfl⟩, hlkd⟩, rfl⟩
    have cM : (Phase1Compare source dest del).SizeMismatch.countP
        (fun r => r.Path == s.Path) = 0 := by
      refine countP_path_eq_zero fun r hr heq => ?_
      obtain ⟨s', d', _, hld', _⟩ := (mem_sizeMismatch_iff hs hd _).mp hr
      rw [heq, hlkd] at hld'
      cases hld'
    have cC : (Phase1Compare source dest del).NeedChecksum.countP
        (fun r => r.Path == s.Path) = 0 := by
      refine countP_path_eq_zero fun r hr heq => ?_
      obtain ⟨s', d', _, hld', _⟩ := (mem_needChecksum_iff hs hd _).mp hr
      rw [heq, hlkd] at hld'
      cases hld'
    have cI : (Phase1Compare source dest del).Identical.countP
        (fun r => r.Path == s.Path) = 0 := by
      refine countP_path_eq_zero fun r hr heq => ?_
      obtain ⟨s', d', _, hld', _⟩ := (mem_identical_iff hs hd _).mp hr
      rw [heq, hlkd] at hld'
      cases hld'
    omega
  · have cN : (Phase1Compare source dest del).NewItems.countP
        (fun r => r.Path == s.Path) = 0 := by
      refine countP_path_eq_zero fun r hr heq => ?_
      obtain ⟨_, hnone⟩ := (mem_newItems_iff hs hd _).mp hr
      rw [heq, hlkd] at hnone
      cases hnone
    by_cases hsz : s.Size ≠ d.Size
    · have cM : (Phase1Compare source dest del).SizeMismatch.countP
          (fun r => r.Path == s.Path) = 1 :=
        countP_path_eq_one hnM
          ⟨⟨s.Path, s.Size⟩,
            (mem_sizeMismatch_iff hs hd _).mpr ⟨s, d, hlks, hlkd, rfl, hsz⟩, rfl⟩
      have cC : (Phase1Compare source dest del).NeedChecksum.countP
          (fun r => r.Path == s.Path) = 0 := by
        refine countP_path_eq_zero fun r hr heq => ?_
        obtain ⟨s', d', hls', hld', _, hsd', _⟩ := (mem_needChecksum_iff hs hd _).mp hr
        rw [heq, hlks] at hls'
        rw [heq, hlkd] at hld'
        cases hls'
        cases hld'
        exact hsz hsd'
      have cI : (Phase1Compare source dest del).Identical.countP
          (fun r => r.Path == s.Path) = 0 := by
        refine countP_path_eq_zero fun r hr heq => ?_
        obtain ⟨s', d', hls', hld', _, hsd', _⟩ := (mem_identical_iff hs hd _).mp hr
        rw [heq, hlks] at hls'
        rw [heq, hlkd] at hld'
        cases hls'
        cases hld'
        exact hsz hsd'
      omega
    · rw [not_not] at hsz
      have cM : (Phase1Compare source dest del).SizeMismatch.countP
          (fun r => r.Path == s.Path) = 0 := by
        refine countP_path_eq_zero fun r hr heq => ?_
        obtain ⟨s', d', hls', hld', _, hsd'⟩ := (mem_sizeMismatch_iff hs hd _).mp hr
        rw [heq, hlks] at hls'
        rw [heq, hlkd] at hld'
        cases hls'
        cases hld'
        exact hsd' hsz
      by_cases hck : d.Checksum ≠ "" ∧ s.Checksum ≠ "" ∧ s.Checksum = d.Checksum
      · have cI : (Phase1Compare source dest del).Identical.countP
            (fun r => r.Path == s.Path) = 1 :=
          countP_path_eq_one hnI
            ⟨⟨s.Path, s.Size⟩,
              (mem_identical_iff hs hd _).mpr
                ⟨s, d, hlks, hlkd, rfl, hsz, hck.1, hck.2.1, hck.2.2⟩, rfl⟩
        have cC : (Phase1Compare source dest del).NeedChecksum.countP
            (fun r => r.Path == s.Path) = 0 := by
          refine countP_path_eq_zero fun r hr heq => ?_
          obtain ⟨s', d', hls', hld', _, _, hck'⟩ := (mem_needChecksum_iff hs hd _).mp hr
          rw [heq, hlks] at hls'
          rw [heq, hlkd] at hld'
          cases hls'
          cases hld'
          exact hck' hck
        omega
      · have cC : (Phase1Compare source dest del).NeedChecksum.countP
            (fun r => r.Path == s.Path) = 1 :=
          countP_path_eq_one hnC
            ⟨⟨s.Path, s.Size⟩,
              (mem_needChecksum_iff hs hd _).mpr ⟨s, d, hlks, hlkd, rfl, hsz, hck⟩, rfl⟩
        have cI : (Phase1Compare source dest del).Identical.countP
            (fun r => r.Path == s.Path) = 0 := by
          refine countP_path_eq_zero fun r hr heq => ?_
          obtain ⟨s', d', hls', hld', _, _, h1, h2, h3⟩ := (mem_identical_iff hs hd _).mp hr
          rw [heq, hlks] at hls'
          rw [heq, hlkd] at hld'
          cases hls'
          cases hld'
          exact hck ⟨h1, h2, h3⟩
        omega

theorem phase1_remote_only {source dest : List ItemMetadata} {del : Bool}
    (hs : (source.map ItemMetadata.Path).Nodup) (hd : (dest.map ItemMetadata.Path).Nodup) :
    ∀ d ∈ dest, lookupPath source d.Path = none →
      ((Phase1Compare source dest del).NewItems
        ++ (Phase1Compare source dest del).SizeMismatch
        ++ (Phase1Compare source dest del).NeedChecksum
        ++ (Phase1Compare source dest del).Identical).countP
          (fun r => r.Path == d.Path) = 0 ∧
      (Phase1Compare source dest del).DeletedItems.countP
          (fun r => r.Path == d.Path) = (if del = true then 1 else 0) := by
  intro d hmem hnone
  obtain ⟨hnN, hnD, hnM, hnC, hnI⟩ := @phase1_buckets_paths_nodup source dest del hs hd
  have hlkd : lookupPath dest d.Path = some d := lookupPath_eq_some_of_mem hd hmem rfl
  constructor
  · simp only [List.countP_append]
    have cN : (Phase1Compare source dest del).NewItems.countP
        (fun r => r.Path == d.Path) = 0 := by
      refine countP_path_eq_zero fun r hr heq => ?_
      obtain ⟨⟨s', hls', _⟩, _⟩ := (mem_newItems_iff hs hd _).mp hr
      rw [heq, hnone] at hls'
      cases hls'
    have cM : (Phase1Compare source dest del).SizeMismatch.countP
        (fun r => r.Path == d.Path) = 0 := by
      refine countP_path_eq_zero fun r hr heq => ?_
      obtain ⟨s', d', hls', _⟩ := (mem_sizeMismatch_iff hs hd _).mp hr
      rw [heq, hnone] at hls'
      cases hls'
    have cC : (Phase1Compare source dest del).NeedChecksum.countP
        (fun r => r.Path == d.Path) = 0 := by
      refine countP_path_eq_zero fun r hr heq => ?_
      obtain ⟨s', d', hls', _⟩ := (mem_needChecksum_iff hs hd _).mp hr
      rw [heq, hnone] at hls'
      cases hls'
    have cI : (Phase1Compare source dest del).Identical.countP
        (fun r => r.Path == d.Path) = 0 := by
      refine countP_path_eq_zero fun r hr heq => ?_
      obtain ⟨s', d', hls', _⟩ := (mem_identical_iff hs hd _).mp hr
      rw [heq, hnone] at hls'
      cases hls'
    omega
  · cases del with
    | true =>
      rw [if_pos rfl]
      exact countP_path_eq_one hnD
        ⟨⟨d.Path, d.Size⟩,
          (mem_deletedItems_iff hs hd _).mpr ⟨rfl, ⟨d, hlkd, rfl⟩, hnone⟩, rfl⟩
    | false =>
      rw [if_neg Bool.false_ne_true]
      refine countP_path_eq_zero fun r hr heq => ?_
      obtain ⟨hdel, _⟩ := (mem_deletedItems_iff hs hd _).mp hr
      cases hdel

/-- C1: on metadata lists in which no path appears twice, Phase1Compare
places each local path in exactly one of the four buckets — absent remotely
in NewItems, present with a different size in SizeMismatch, present with
equal size and both checksums non-empty and equal in Identical, otherwise
in NeedChecksum — places each remote-only path in DeletedItems exactly when
deletion is enabled (and in no bucket otherwise), and every output list is
sorted by path (with no path repeated inside a bucket). -/
theorem phase1_partition (source dest : List ItemMetadata) (deleteEnabled : Bool)
    (hs : (source.map ItemMetadata.Path).Nodup)
    (hd : (dest.map ItemMetadata.Path).Nodup) :
    (∀ r, r ∈ (Phase1Compare source dest deleteEnabled).NewItems ↔
      (∃ s, lookupPath source r.Path = some s ∧ r.Size = s.Size) ∧
      lookupPath dest r.Path = none) ∧
    (∀ r, r ∈ (Phase1Compare source dest deleteEnabled).SizeMismatch ↔
      ∃ s d, lookupPath source r.Path = some s ∧ lookupPath dest r.Path = some d ∧
        r.Size = s.Size ∧ s.Size ≠ d.Size) ∧
    (∀ r, r ∈ (Phase1Compare source dest deleteEnabled).Identical ↔
      ∃ s d, lookupPath source r.Path = some s ∧ lookupPath dest r.Path = some d ∧
        r.Size = s.Size ∧ s.Size = d.Size ∧
        d.Checksum ≠ "" ∧ s.Checksum ≠ "" ∧ s.Checksum = d.Checksum) ∧
    (∀ r, r ∈ (Phase1Compare source dest deleteEnabled).NeedChecksum ↔
      ∃ s d, lookupPath source r.Path = some s ∧ lookupPath dest r.Path = some d ∧
        r.Size = s.Size ∧ s.Size = d.Size ∧
        ¬(d.Checksum ≠ "" ∧ s.Checksum ≠ "" ∧ s.Checksum = d.Checksum)) ∧
    (∀ r, r ∈ (Phase1Compare source dest deleteEnabled).DeletedItems ↔
      deleteEnabled = true ∧
      (∃ d, lookupPath dest r.Path = some d ∧ r.Size = d.Size) ∧
      lookupPath source r.Path = none) ∧
    (∀ s ∈ source,
      ((Phase1Compare source dest deleteEnabled).NewItems
        ++ (Phase1Compare source dest deleteEnabled).SizeMismatch
        ++ (Phase1Compare source dest deleteEnabled).NeedChecksum
        ++ (Phase1Compare source dest deleteEnabled).Identical).countP
          (fun r => r.Path == s.Path) = 1) ∧
    (∀ d ∈ dest, lookupPath source d.Path = none →
      ((Phase1Compare source dest deleteEnabled).NewItems
        ++ (Phase1Compare source dest deleteEnabled).SizeMismatch
        ++ (Phase1Compare source dest deleteEnabled).NeedChecksum
        ++ (Phase1Compare source dest deleteEnabled).Identical).countP
          (fun r => r.Path == d.Path) = 0 ∧
      (Phase1Compare source dest deleteEnabled).DeletedItems.countP
          (fun r => r.Path == d.Path) = (if deleteEnabled = true then 1 else 0)) ∧
    ((Phase1Compare source dest deleteEnabled).NewItems.Sorted refLe ∧
      (Phase1Compare source dest deleteEnabled).DeletedItems.Sorted refLe ∧
      (Phase1Compare source dest deleteEnabled).SizeMismatch.Sorted refLe ∧
      (Phase1Compare source dest deleteEnabled).NeedChecksum.Sorted refLe ∧
      (Phase1Compare source dest deleteEnabled).Identical.Sorted refLe) ∧
    (((Phase1Compare source dest deleteEnabled).NewItems.map (fun r => r.Path)).Nodup ∧
      ((Phase1Compare source dest deleteEnabled).DeletedItems.map (fun r => r.Path)).Nodup ∧
      ((Phase1Compare source dest deleteEnabled).SizeMismatch.map (fun r => r.Path)).Nodup ∧
      ((Phase1Compare source dest deleteEnabled).NeedChecksum.map (fun r => r.Path)).Nodup ∧
      ((Phase1Compare source dest deleteEnabled).Identical.map (fun r => r.Path)).Nodup) :=
  ⟨fun r => mem_newItems_iff hs hd r,
   fun r => mem_sizeMismatch_iff hs hd r,
   fun r => mem_identical_iff hs hd r,
   fun r => mem_needChecksum_iff hs hd r,
   fun r => mem_deletedItems_iff hs hd r,
   phase1_local_exactly_one hs hd,
   phase1_remote_only hs hd,
   phase1_buckets_sorted source dest deleteEnabled,
   phase1_buckets_paths_nodup hs hd⟩

theorem phase1_partition_witness :
    ((⟨"a.txt", 1⟩ : ItemRef) ∈
      (Phase1Compare
        [⟨"a.txt", 1, ""⟩, ⟨"b.txt", 2, "x"⟩, ⟨"c.txt", 3, "x"⟩, ⟨"d.txt", 4, ""⟩]
        [⟨"b.txt", 2, "x"⟩, ⟨"c.txt", 9, "y"⟩, ⟨"d.txt", 4, ""⟩, ⟨"e.txt", 5, ""⟩]
        true).NewItems) ∧
    ((Phase1Compare
        [⟨"a.txt", 1, ""⟩, ⟨"b.txt", 2, "x"⟩, ⟨"c.txt", 3, "x"⟩, ⟨"d.txt", 4, ""⟩]
        [⟨"b.txt", 2, "x"⟩, ⟨"c.txt", 9, "y"⟩, ⟨"d.txt", 4, ""⟩, ⟨"e.txt", 5, ""⟩]
        true).NewItems
      ++ (Phase1Compare
        [⟨"a.txt", 1, ""⟩, ⟨"b.txt", 2, "x"⟩, ⟨"c.txt", 3, "x"⟩, ⟨"d.txt", 4, ""⟩]
        [⟨"b.txt", 2, "x"⟩, ⟨"c.txt", 9, "y"⟩, ⟨"d.txt", 4, ""⟩, ⟨"e.txt", 5, ""⟩]
        true).SizeMismatch
      ++ (Phase1Compare
        [⟨"a.txt", 1, ""⟩, ⟨"b.txt", 2, "x"⟩, ⟨"c.txt", 3, "x"⟩, ⟨"d.txt", 4, ""⟩]
        [⟨"b.txt", 2, "x"⟩, ⟨"c.txt", 9, "y"⟩, ⟨"d.txt", 4, ""⟩, ⟨"e.txt", 5, ""⟩]
        true).NeedChecksum
      ++ (Phase1Compare
        [⟨"a.txt", 1, ""⟩, ⟨"b.txt", 2, "x"⟩, ⟨"c.txt", 3, "x"⟩, ⟨"d.txt", 4, ""⟩]
        [⟨"b.txt", 2, "x"⟩, ⟨"c.txt", 9, "y"⟩, ⟨"d.txt", 4, ""⟩, ⟨"e.txt", 5, ""⟩]
        true).Identical).countP (fun r => r.Path == "a.txt") = 1 := by
  have h := phase1_partition
    [⟨"a.txt", 1, ""⟩, ⟨"b.txt", 2, "x"⟩, ⟨"c.txt", 3, "x"⟩, ⟨"d.txt", 4, ""⟩]
    [⟨"b.txt", 2, "x"⟩, ⟨"c.txt", 9, "y"⟩, ⟨"d.txt", 4, ""⟩, ⟨"e.txt", 5, ""⟩]
    true (by decide) (by decide)
  constructor
  · exact (h.1 ⟨"a.txt", 1⟩).mpr ⟨⟨⟨"a.txt", 1, ""⟩, by decide, rfl⟩, by decide⟩
  · exact h.2.2.2.2.2.1 ⟨"a.txt", 1, ""⟩ (by decide)

theorem phase3_unmatched_needchecksum_dropped_witness :
    Phase3GeneratePlan ⟨[], [], [], [⟨"x.txt", 7⟩], []⟩ [] "/l" "b" =
      Phase3GeneratePlan ⟨[], [], [], [], []⟩ [] "/l" "b" := by
  have hw := phase3_unmatched_needchecksum_dropped ⟨[], [], [], [], []⟩ [] "/l" "b" [] []
    ⟨"x.txt", 7⟩ (fun cs hcs => by simp at hcs)
  simpa using hw

/-! ## Theorems: pattern matcher (C3) -/

theorem classScan_decomp {l a b : List Char} (h : classScan l = some (a, b)) :
    ']' ∉ a ∧ l = a ++ ']' :: b := by
  induction l generalizing a b with
  | nil => simp [classScan] at h
  | cons c t ih =>
    rw [classScan] at h
    by_cases hc : c = ']'
    · rw [if_pos hc] at h
      cases h
      simp [hc]
    · rw [if_neg hc, Option.map_eq_some'] at h
      obtain ⟨⟨a', b'⟩, h1, h2⟩ := h
      rw [Prod.mk.injEq] at h2
      obtain ⟨rfl, rfl⟩ := h2
      obtain ⟨hmem, hdec⟩ := ih h1
      constructor
      · simp only [List.mem_cons]
        rintro (rfl | hmem')
        · exact hc rfl
        · exact hmem hmem'
      · rw [List.cons_append, ← hdec]

theorem classScan_append {a : List Char} (ha : ']' ∉ a) (Y : List Char) :
    classScan (a ++ ']' :: Y) = some (a, Y) := by
  induction a with
  | nil => simp [classScan]
  | cons c t ih =>
    have hc : c ≠ ']' := fun hcc => ha (by simp [hcc])
    rw [List.cons_append, classScan, if_neg hc,
      ih (fun hmem => ha (List.mem_cons_of_mem _ hmem))]
    rfl

theorem classScan_eq_none {l : List Char} : classScan l = none ↔ ']' ∉ l := by
  induction l with
  | nil => simp [classScan]
  | cons c t ih =>
    rw [classScan]
    by_cases hc : c = ']'
    · rw [if_pos hc]
      simp [hc]
    · rw [if_neg hc, Option.map_eq_none']
      simp only [List.mem_cons]
      rw [ih]
      constructor
      · rintro h (rfl | hmem)
        · exact hc rfl
        · exact h hmem
      · intro h hmem
        exact h (Or.inr hmem)

theorem classSkip_append (l : List Char) : (classSkip l).1 ++ (classSkip l).2 = l := by
  rcases l with _ | ⟨c, t⟩
  · simp [classSkip]
  · rcases t with _ | ⟨d, t'⟩ <;>
      · simp only [classSkip]
        split_ifs <;> simp_all

/-- The exhaustive shapes of the `!`/`]` skip. -/
theorem classSkip_cases (l : List Char) :
    (l = [] ∧ classSkip l = ([], [])) ∨
    (∃ t, l = '!' :: ']' :: t ∧ classSkip l = (['!', ']'], t)) ∨
    (∃ c t, l = '!' :: c :: t ∧ c ≠ ']' ∧ classSkip l = (['!'], c :: t)) ∨
    (l = ['!'] ∧ classSkip l = (['!'], [])) ∨
    (∃ t, l = ']' :: t ∧ classSkip l = ([']'], t)) ∨
    (∃ c t, l = c :: t ∧ c ≠ '!' ∧ c ≠ ']' ∧ classSkip l = ([], c :: t)) := by
  rcases l with _ | ⟨c, t⟩
  · exact Or.inl ⟨rfl, rfl⟩
  · by_cases hc : c = '!'
    · subst hc
      rcases t with _ | ⟨d, t'⟩
      · refine Or.inr (Or.inr (Or.inr (Or.inl ⟨rfl, ?_⟩)))
        simp [classSkip]
      · by_cases hd : d = ']'
        · subst hd
          refine Or.inr (Or.inl ⟨t', rfl, ?_⟩)
          simp [classSkip]
        · refine Or.inr (Or.inr (Or.inl ⟨d, t', rfl, hd, ?_⟩))
          simp [classSkip, hd]
    · by_cases hcb : c = ']'
      · subst hcb
        refine Or.inr (Or.inr (Or.inr (Or.inr (Or.inl ⟨t, rfl, ?_⟩))))
        simp [classSkip]
      · refine Or.inr (Or.inr (Or.inr (Or.inr (Or.inr ⟨c, t, rfl, hc, hcb, ?_⟩))))
        simp [classSkip, hc, hcb]

theorem classSplit_decomp {l stuff r' : List Char}
    (h : classSplit l = some (stuff, r')) : l = stuff ++ ']' :: r' := by
  rw [classSplit, Option.map_eq_some'] at h
  obtain ⟨⟨a, b⟩, hscan, heq⟩ := h
  rw [Prod.mk.injEq] at heq
  obtain ⟨hstuff, rfl⟩ := heq
  simp only at hstuff
  obtain ⟨_, hdec⟩ := classScan_decomp hscan
  calc l = (classSkip l).1 ++ (classSkip l).2 := (classSkip_append l).symm
    _ = (classSkip l).1 ++ (a ++ ']' :: b) := by rw [hdec]
    _ = ((classSkip l).1 ++ a) ++ ']' :: b := by rw [List.append_assoc]
    _ = stuff ++ ']' :: b := by rw [hstuff]

theorem classSplit_reconstruct {l stuff r' : List Char}
    (h : classSplit l = some (stuff, r')) (Y : List Char) :
    classSplit (stuff ++ ']' :: Y) = some (stuff, Y) := by
  rw [classSplit, Option.map_eq_some'] at h
  obtain ⟨⟨a, b⟩, hscan, heq⟩ := h
  rw [Prod.mk.injEq] at heq
  obtain ⟨hstuff, rfl⟩ := heq
  simp only at hstuff
  obtain ⟨hnR, hdec⟩ := classScan_decomp hscan
  rcases classSkip_cases l with ⟨hl, hsk⟩ | ⟨t, hl, hsk⟩ | ⟨c, t, hl, hc, hsk⟩ |
    ⟨hl, hsk⟩ | ⟨t, hl, hsk⟩ | ⟨c, t, hl, hc1, hc2, hsk⟩
  · rw [hsk] at hscan
    simp [classScan] at hscan
  · rw [hsk] at hscan hstuff
    simp only at hscan hstuff
    subst hstuff
    have hskr : classSkip ('!' :: ']' :: (a ++ ']' :: Y)) =
        (['!', ']'], a ++ ']' :: Y) := by
      simp [classSkip]
    simp [classSplit, hskr, classScan_append hnR]
  · rw [hsk] at hscan hstuff
    simp only at hscan hstuff
    obtain ⟨_, hdec'⟩ := classScan_decomp hscan
    rcases a with _ | ⟨a0, a'⟩
    · simp only [List.nil_append] at hdec'
      cases hdec'
      exact absurd rfl hc
    · have ha0 : a0 = c := by
        rw [List.cons_append] at hdec'
        cases hdec'
        rfl
      subst ha0
      subst hstuff
      have hnR' : ']' ∉ a' := fun hm => hnR (List.mem_cons_of_mem _ hm)
      have ha0ne : a0 ≠ ']' := fun hm => hnR (by simp [hm])
      have hskr : classSkip ('!' :: a0 :: (a' ++ ']' :: Y)) =
          (['!'], a0 :: (a' ++ ']' :: Y)) := by
        simp [classSkip, ha0ne]
      simp only [classSplit, List.cons_append, List.nil_append, hskr]
      rw [show a0 :: (a' ++ ']' :: Y) = (a0 :: a') ++ ']' :: Y from by simp,
        classScan_append hnR Y]
      rfl
  · rw [hsk] at hscan
    simp [classScan] at hscan
  · rw [hsk] at hscan hstuff
    simp only at hscan hstuff
    subst hstuff
    have hskr : classSkip (']' :: (a ++ ']' :: Y)) = ([']'], a ++ ']' :: Y) := by
      simp [classSkip]
    simp [classSplit, hskr, classScan_append hnR]
  · rw [hsk] at hscan hstuff
    simp only at hscan hstuff
    obtain ⟨_, hdec'⟩ := classScan_decomp hscan
    rcases a with _ | ⟨a0, a'⟩
    · simp only [List.nil_append] at hdec'
      cases hdec'
      exact absurd rfl hc2
    · have ha0 : a0 = c := by
        rw [List.cons_append] at hdec'
        cases hdec'
        rfl
      subst ha0
      subst hstuff
      have hnR' : ']' ∉ a' := fun hm => hnR (List.mem_cons_of_mem _ hm)
      have ha0ne : a0 ≠ ']' := fun hm => hnR (by simp [hm])
      have hskr : classSkip (a0 :: (a' ++ ']' :: Y)) = ([], a0 :: (a' ++ ']' :: Y)) := by
        simp [classSkip, ha0ne, hc1]
      simp only [List.nil_append, List.cons_append]
      rw [classSplit, hskr]
      simp only
      rw [show a0 :: (a' ++ ']' :: Y) = (a0 :: a') ++ ']' :: Y by simp,
        classScan_append (by simpa using ⟨fun hm => ha0ne hm.symm, hnR'⟩)]
      simp

theorem collapse_head (l : List Char) :
    (collapseStarsOutsideClasses l).head? = l.head? := by
  rw [collapseStarsOutsideClasses.eq_def]
  split
  · rfl
  · rfl
  · rfl
  · split <;> rfl
  · rfl

theorem collapse_subset : ∀ (n : Nat) (l : List Char), l.length ≤ n →
    ∀ c ∈ collapseStarsOutsideClasses l, c ∈ l := by
  intro n
  induction n with
  | zero =>
    intro l hl c hc
    rw [Nat.le_zero, List.length_eq_zero] at hl
    subst hl
    simp [collapseStarsOutsideClasses] at hc
  | succ n ih =>
    intro l hl c hc
    rw [collapseStarsOutsideClasses.eq_def] at hc
    split at hc
    · simp at hc
    · rename_i rest
      rcases List.mem_cons.mp hc with rfl | hc'
      · exact List.mem_cons_self _ _
      · have hr := ih _ (le_trans ((List.dropWhile_sublist _).length_le) (by simpa using hl))
          c hc'
        exact List.mem_cons_of_mem _ ((List.dropWhile_sublist _).subset hr)
    · rename_i rest
      rcases List.mem_cons.mp hc with rfl | hc'
      · exact List.mem_cons_self _ _
      · exact List.mem_cons_of_mem _ (ih _ (by simpa using hl) c hc')
    · rename_i rest
      split at hc
      · rcases List.mem_cons.mp hc with rfl | hc'
        · exact List.mem_cons_self _ _
        · exact List.mem_cons_of_mem _ (ih _ (by simpa using hl) c hc')
      · rename_i stuff rest' hsome
        rcases List.mem_cons.mp hc with rfl | hc'
        · exact List.mem_cons_self _ _
        · have hrest : rest = stuff ++ ']' :: rest' := classSplit_decomp hsome
          rcases List.mem_append.mp hc' with hin | hin
          · exact List.mem_cons_of_mem _ (by rw [hrest]; exact List.mem_append_left _ hin)
          · rcases List.mem_cons.mp hin with rfl | hin'
            · exact List.mem_cons_of_mem _ (by rw [hrest]; simp)
            · have hlen : rest'.length ≤ n := by
                have h1 := classSplit_length hsome
                simp only [List.length_cons] at hl
                omega
              have := ih _ hlen c hin'
              exact List.mem_cons_of_mem _ (by rw [hrest]; simp [this])
    · rename_i c0 rest h1 h2 h3
      rcases List.mem_cons.mp hc with rfl | hc'
      · exact List.mem_cons_self _ _
      · exact List.mem_cons_of_mem _ (ih _ (by simpa using hl) c hc')

theorem classSplit_collapse_none {l : List Char} (h : classSplit l = none) :
    classSplit (collapseStarsOutsideClasses l) = none := by
  rw [classSplit, Option.map_eq_none', classScan_eq_none] at h ⊢
  have hsub : ∀ c ∈ collapseStarsOutsideClasses l, c ∈ l :=
    collapse_subset l.length l le_rfl
  rcases classSkip_cases l with ⟨hl, hsk⟩ | ⟨t, hl, hsk⟩ | ⟨c, t, hl, hc, hsk⟩ |
    ⟨hl, hsk⟩ | ⟨t, hl, hsk⟩ | ⟨c, t, hl, hc1, hc2, hsk⟩
  · subst hl
    simp [collapseStarsOutsideClasses, classSkip]
  · subst hl
    rw [hsk] at h
    simp only at h
    have hco : collapseStarsOutsideClasses ('!' :: ']' :: t) =
        '!' :: ']' :: collapseStarsOutsideClasses t := by
      simp [collapseStarsOutsideClasses]
    rw [hco]
    have hskc : classSkip ('!' :: ']' :: collapseStarsOutsideClasses t) =
        (['!', ']'], collapseStarsOutsideClasses t) := by
      simp [classSkip]
    rw [hskc]
    intro hmem
    exact h (collapse_subset t.length t le_rfl _ hmem)
  · subst hl
    rw [hsk] at h
    simp only at h
    have hco : collapseStarsOutsideClasses ('!' :: c :: t) =
        '!' :: collapseStarsOutsideClasses (c :: t) := by
      simp [collapseStarsOutsideClasses]
    rw [hco]
    have hhead := collapse_head (c :: t)
    rcases hcoll : collapseStarsOutsideClasses (c :: t) with _ | ⟨c0, rest0⟩
    · simp [classSkip]
    · rw [hcoll] at hhead
      simp only [List.head?_cons] at hhead
      cases hhead
      have hskc : classSkip ('!' :: c :: rest0) = (['!'], c :: rest0) := by
        simp [classSkip, hc]
      rw [hskc]
      intro hmem
      exact h (collapse_subset (c :: t).length (c :: t) le_rfl _ (hcoll ▸ hmem))
  · subst hl
    rw [hsk] at h
    simp only at h
    simp [collapseStarsOutsideClasses, classSkip]
  · subst hl
    rw [hsk] at h
    simp only at h
    have hco : collapseStarsOutsideClasses (']' :: t) =
        ']' :: collapseStarsOutsideClasses t := by
      simp [collapseStarsOutsideClasses]
    rw [hco]
    have hskc : classSkip (']' :: collapseStarsOutsideClasses t) =
        ([']'], collapseStarsOutsideClasses t) := by
      simp [classSkip]
    rw [hskc]
    intro hmem
    exact h (collapse_subset t.length t le_rfl _ hmem)
  · subst hl
    rw [hsk] at h
    simp only at h
    have hhead := collapse_head (c :: t)
    rcases hcoll : collapseStarsOutsideClasses (c :: t) with _ | ⟨c0, rest0⟩
    · simp [classSkip]
    · rw [hcoll] at hhead
      simp only [List.head?_cons] at hhead
      cases hhead
      have hskc : classSkip (c :: rest0) = ([], c :: rest0) := by
        simp [classSkip, hc1, hc2]
      rw [hskc]
      intro hmem
      exact h (hsub _ (hcoll ▸ hmem))

theorem dropWhile_star_head {l : List Char} {c : Char}
    (h : (l.dropWhile (fun x => x == '*')).head? = some c) : c ≠ '*' := by
  induction l with
  | nil => simp [List.dropWhile] at h
  | cons a t ih =>
    rw [List.dropWhile_cons] at h
    by_cases ha : a = '*'
    · rw [if_pos (by simp [ha])] at h
      exact ih h
    · rw [if_neg (by simp [ha])] at h
      simp only [List.head?_cons] at h
      cases h
      exact ha


theorem translateScan_bracket (X : List Char) :
    translateScan ('[' :: X) =
      (match classSplit X with
        | none => GlobElem.lit '[' :: translateScan X
        | some (stuff, _rest) => classElem stuff :: translateScan _rest) := by
  simp only [translateScan]
  split
  · rename_i heq
    rw [heq]
  · rename_i stuff rest' heq
    rw [heq]

theorem translateScan_collapse (l : List Char) :
    translateScan (collapseStarsOutsideClasses l) = translateScan l := by
  suffices h : ∀ (n : Nat) (l : List Char), l.length ≤ n →
      translateScan (collapseStarsOutsideClasses l) = translateScan l from
    h l.length l le_rfl
  intro n
  induction n with
  | zero =>
    intro l hl
    rw [Nat.le_zero, List.length_eq_zero] at hl
    subst hl
    simp [collapseStarsOutsideClasses]
  | succ n ih =>
    intro l hl
    rw [collapseStarsOutsideClasses.eq_def]
    split
    · rfl
    · rename_i rest
      have hRlen : (rest.dropWhile (fun c => c == '*')).length ≤ n :=
        le_trans (List.dropWhile_sublist _).length_le (by simpa using hl)
      have hfix : ((collapseStarsOutsideClasses
          (rest.dropWhile (fun c => c == '*'))).dropWhile (fun c => c == '*')) =
          collapseStarsOutsideClasses (rest.dropWhile (fun c => c == '*')) := by
        have hhead := collapse_head (rest.dropWhile (fun c => c == '*'))
        rcases hco : collapseStarsOutsideClasses (rest.dropWhile (fun c => c == '*')) with
          _ | ⟨c0, t0⟩
        · simp
        · rw [hco] at hhead
          have hc0 : c0 ≠ '*' := dropWhile_star_head hhead.symm
          rw [List.dropWhile_cons, if_neg (by simp [hc0])]
      simp only [translateScan, hfix]
      rw [ih _ hRlen]
    · rename_i rest
      simp only [translateScan]
      rw [ih rest (by simpa using hl)]
    · rename_i rest
      split
      · rename_i hnone
        have h2 := classSplit_collapse_none hnone
        simp only [translateScan_bracket, hnone, h2]
        rw [ih rest (by simpa using hl)]
      · rename_i stuff rest' hsome
        have hrec := classSplit_reconstruct hsome (collapseStarsOutsideClasses rest')
        have hlen : rest'.length ≤ n := by
          have := classSplit_length hsome
          simp only [List.length_cons] at hl
          omega
        simp only [translateScan_bracket, hsome, hrec]
        rw [ih rest' hlen]
    · rename_i c rest h1 h2 h3
      simp only [translateScan]
      rw [ih rest (by simpa using hl)]

theorem elemsMatch_star_absorb :
    ∀ (u v : List Char) (es : List GlobElem), elemsMatch es v = true →
      elemsMatch (.star :: es) (u ++ v) = true := by
  intro u
  induction u with
  | nil =>
    intro v es h
    rcases v with _ | ⟨c, cs⟩
    · rw [List.nil_append]
      simp only [elemsMatch]
      exact h
    · rw [List.nil_append]
      simp only [elemsMatch]
      rw [h]
      simp
  | cons a u' ih =>
    intro v es h
    rw [List.cons_append]
    simp only [elemsMatch]
    rw [ih v es h]
    simp

theorem elemsMatch_star_split :
    ∀ (s : List Char) (es : List GlobElem), elemsMatch (.star :: es) s = true →
      ∃ u v, s = u ++ v ∧ elemsMatch es v = true := by
  intro s
  induction s with
  | nil =>
    intro es h
    simp only [elemsMatch] at h
    exact ⟨[], [], rfl, h⟩
  | cons c cs ih =>
    intro es h
    simp only [elemsMatch, Bool.or_eq_true] at h
    rcases h with h | h
    · exact ⟨[], c :: cs, rfl, h⟩
    · obtain ⟨u, v, heq, hm⟩ := ih es h
      exact ⟨c :: u, v, by rw [heq, List.cons_append], hm⟩

theorem elemsMatch_single_star : ∀ cs : List Char, elemsMatch [GlobElem.star] cs = true := by
  intro cs
  induction cs with
  | nil => simp [elemsMatch]
  | cons c cs ih =>
    simp only [elemsMatch]
    rw [ih]
    simp

/-- C3 counterexample: for the pattern `[(-**-b]`, replacing its run of
consecutive `*` by a single `*` yields `[(-*-b]`, and the two patterns do
not match the same set of paths — the original matches "a", the collapsed
one does not (the collapse shifts a `-` out of range position inside the
character class). -/
theorem fnmatch_collapse_counterexample :
    collapseConsecutiveStars "[(-**-b]".data = "[(-*-b]".data ∧
    fnmatchMatch "[(-**-b]" "a" = .ok true ∧
    fnmatchMatch "[(-*-b]" "a" = .ok false := by
  refine ⟨?_, ?_, ?_⟩ <;>
    simp [collapseConsecutiveStars, fnmatchMatch, Translate, translateScan, classSplit,
      classScan, classSkip, classElem, parseClassItems, charInItems, elemValid, elemsMatch]

/-- C3 amended: in the fnmatch matcher used by the scanner and the
remote-listing filter, `*` matches any sequence of characters including
path separators — a starred fragment list absorbs an arbitrary prefix and
only splits off an arbitrary prefix, the pattern `*` matches every path,
and `*.txt` matches `dir/f.txt` (so IsExcluded excludes it) — and a
pattern with consecutive `*` characters OUTSIDE bracketed character
classes translates to exactly the same regex as the same pattern with a
single `*`, hence matches exactly the same paths (inside a character class
a `*` is a literal and collapsing can change the class, per the
counterexample). -/
theorem fnmatch_star_and_collapse :
    (∀ p : String, Translate ⟨collapseStarsOutsideClasses p.data⟩ = Translate p) ∧
    (∀ p name : String,
      fnmatchMatch ⟨collapseStarsOutsideClasses p.data⟩ name = fnmatchMatch p name) ∧
    (∀ (es : List GlobElem) (u v : List Char), elemsMatch es v = true →
      elemsMatch (.star :: es) (u ++ v) = true) ∧
    (∀ (es : List GlobElem) (s : List Char), elemsMatch (.star :: es) s = true →
      ∃ u v, s = u ++ v ∧ elemsMatch es v = true) ∧
    (∀ s : String, fnmatchMatch "*" s = .ok true) ∧
    (fnmatchMatch "*.txt" "dir/f.txt" = .ok true ∧
      IsExcluded "dir/f.txt" ["*.txt"] = .ok true) := by
  refine ⟨?_, ?_, fun es u v h => elemsMatch_star_absorb u v es h,
    fun es s h => elemsMatch_star_split s es h, ?_, ?_, ?_⟩
  · intro p
    rw [Translate, Translate]
    rw [show (String.mk (collapseStarsOutsideClasses p.data)).data =
      collapseStarsOutsideClasses p.data from rfl]
    rw [translateScan_collapse]
  · intro p name
    rw [fnmatchMatch, fnmatchMatch]
    rw [show (String.mk (collapseStarsOutsideClasses p.data)).data =
      collapseStarsOutsideClasses p.data from rfl]
    rw [translateScan_collapse]
  · intro s
    have h1 : translateScan "*".data = [GlobElem.star] := by
      simp [translateScan, show "*".data = ['*'] from rfl]
    rw [fnmatchMatch]
    simp only [h1]
    rw [if_pos (by simp [elemValid])]
    rw [elemsMatch_single_star]
  · simp [fnmatchMatch, Translate, translateScan, classSplit, classScan, classSkip,
      classElem, parseClassItems, charInItems, elemValid, elemsMatch]
  · simp [IsExcluded, fnmatchMatch, Translate, translateScan, classSplit, classScan,
      classSkip, classElem, parseClassItems, charInItems, elemValid, elemsMatch]

theorem fnmatch_star_and_collapse_witness :
    elemsMatch [GlobElem.star, GlobElem.lit 'x'] ("a/b".data ++ "x".data) = true :=
  fnmatch_star_and_collapse.2.2.1 [GlobElem.lit 'x'] "a/b".data "x".data
    (by simp [elemsMatch, show "x".data = ['x'] from rfl])

/-! ## Theorems: local tree scanner (C7) -/

theorem scanEntries_append (excludes : List String) (p : String) :
    ∀ (l1 l2 : List FsEntry),
      scanEntries excludes p (l1 ++ l2) =
        ((scanEntries excludes p l1).1 ++ (scanEntries excludes p l2).1,
         (scanEntries excludes p l1).2 <|> (scanEntries excludes p l2).2) := by
  intro l1 l2
  induction l1 with
  | nil =>
    simp [scanEntries]
  | cons e rest ih =>
    rw [List.cons_append, scanEntries, scanEntries, ih]
    rcases (scanEntry excludes p e).2 with _ | err <;> simp

mutual

theorem scanDir_err_spec (excludes : List String) :
    ∀ (p : String) (d : FsDir),
      ((scanDir excludes p d).2 = none ↔ dirHasReadErr d = false) ∧
      (∀ e, (scanDir excludes p d).2 = some e → e ∈ dirReadErrMsgs d)
  | p, .readable entries => by
    have h := scanEntries_err_spec excludes p entries
    simpa [scanDir, dirHasReadErr, dirReadErrMsgs] using h
  | _, .permDenied => by
    simp [scanDir, dirHasReadErr]
  | _, .readErr msg => by
    simp [scanDir, dirHasReadErr, dirReadErrMsgs]

theorem scanEntry_err_spec (excludes : List String) :
    ∀ (p : String) (e : FsEntry),
      ((scanEntry excludes p e).2 = none ↔ entryHasReadErr e = false) ∧
      (∀ m, (scanEntry excludes p e).2 = some m → m ∈ entryReadErrMsgs e)
  | p, .file name size => by
    rw [scanEntry]
    rcases IsExcluded (relJoin p name) excludes with e | b
    · simp [entryHasReadErr, entryReadErrMsgs]
    · rcases b <;> simp [entryHasReadErr, entryReadErrMsgs]
  | p, .dir name sub => by
    have h := scanDir_err_spec excludes (relJoin p name) sub
    simpa [scanEntry, entryHasReadErr, entryReadErrMsgs] using h

theorem scanEntries_err_spec (excludes : List String) :
    ∀ (p : String) (l : List FsEntry),
      ((scanEntries excludes p l).2 = none ↔ entriesHaveReadErr l = false) ∧
      (∀ m, (scanEntries excludes p l).2 = some m → m ∈ entriesReadErrMsgs l)
  | p, [] => by
    simp [scanEntries, entriesHaveReadErr, entriesReadErrMsgs]
  | p, e :: rest => by
    have h1 := scanEntry_err_spec excludes p e
    have h2 := scanEntries_err_spec excludes p rest
    rw [scanEntries]
    constructor
    · simp only [entriesHaveReadErr, Bool.or_eq_false_iff]
      rcases he : (scanEntry excludes p e).2 with _ | m1 <;>
        rcases hr : (scanEntries excludes p rest).2 with _ | m2 <;>
          simp_all
    · intro m hm
      simp only [entriesReadErrMsgs, List.mem_append]
      rcases he : (scanEntry excludes p e).2 with _ | m1
      · rw [he] at hm
        simp only [Option.none_orElse] at hm
        exact Or.inr (h2.2 m hm)
      · rw [he] at hm
        simp only [Option.some_orElse] at hm
        cases hm
        exact Or.inl (h1.2 m he)

end

/-- C7: a permission-denied directory is tolerated — removing a
permission-denied subtree from a directory's entries does not change the
scan result at all, so the remaining items are still returned — while a
scan of a tree containing any other directory read error fails and returns
one of those errors as the scan's error; a tree with no such read error
scans successfully with a path-sorted item list. -/
theorem scanner_error_policy :
    (∀ (excludes : List String) (entries1 entries2 : List FsEntry) (name : String),
      parallelGatherLocalFiles excludes
          (.readable (entries1 ++ FsEntry.dir name .permDenied :: entries2)) =
        parallelGatherLocalFiles excludes (.readable (entries1 ++ entries2))) ∧
    (∀ (excludes : List String) (root : FsDir), dirHasReadErr root = false →
      ∃ items, parallelGatherLocalFiles excludes root = .ok items ∧
        items.Sorted metaLe) ∧
    (∀ (excludes : List String) (root : FsDir), dirHasReadErr root = true →
      ∃ e, parallelGatherLocalFiles excludes root = .error e ∧
        e ∈ dirReadErrMsgs root) := by
  refine ⟨?_, ?_, ?_⟩
  · intro excludes entries1 entries2 name
    rw [parallelGatherLocalFiles, parallelGatherLocalFiles]
    have h1 : scanDir excludes "" (.readable (entries1 ++ FsEntry.dir name .permDenied :: entries2)) =
        scanDir excludes "" (.readable (entries1 ++ entries2)) := by
      rw [scanDir, scanDir, scanEntries_append, scanEntries_append]
      rw [show (FsEntry.dir name FsDir.permDenied :: entries2) = [FsEntry.dir name FsDir.permDenied] ++ entries2 from rfl]
      rw [scanEntries_append]
      have hpd : scanEntries excludes "" [FsEntry.dir name FsDir.permDenied] = ([], none) := by
        simp [scanEntries, scanEntry, scanDir, relJoin]
      rw [hpd]
      simp
    rw [h1]
  · intro excludes root h
    have hspec := scanDir_err_spec excludes "" root
    have hnone : (scanDir excludes "" root).2 = none := hspec.1.mpr h
    rw [parallelGatherLocalFiles, hnone]
    exact ⟨_, rfl, List.sorted_insertionSort metaLe _⟩
  · intro excludes root h
    have hspec := scanDir_err_spec excludes "" root
    rcases herr : (scanDir excludes "" root).2 with _ | e
    · rw [hspec.1] at herr
      rw [herr] at h
      cases h
    · refine ⟨e, ?_, hspec.2 e herr⟩
      rw [parallelGatherLocalFiles, herr]

theorem scanner_error_policy_witness :
    (parallelGatherLocalFiles []
        (.readable ([FsEntry.file "a.txt" 3] ++
          FsEntry.dir "secret" .permDenied :: [FsEntry.file "b.txt" 4])) =
      parallelGatherLocalFiles []
        (.readable ([FsEntry.file "a.txt" 3] ++ [FsEntry.file "b.txt" 4]))) ∧
    (∃ e, parallelGatherLocalFiles [] (.readErr "device error") = .error e ∧
      e ∈ dirReadErrMsgs (.readErr "device error")) ∧
    (∃ items, parallelGatherLocalFiles [] (.readable [FsEntry.file "a.txt" 3]) =
      .ok items ∧ items.Sorted metaLe) :=
  ⟨scanner_error_policy.1 [] [FsEntry.file "a.txt" 3] [FsEntry.file "b.txt" 4] "secret",
   scanner_error_policy.2.2 [] (.readErr "device error") (by simp [dirHasReadErr]),
   scanner_error_policy.2.1 [] (.readable [FsEntry.file "a.txt" 3])
     (by simp [dirHasReadErr, entriesHaveReadErr, entryHasReadErr])⟩

/-! ## Theorems: content fingerprint (C8)

The table-driven update of hash/crc64 is proved equal to the reference
bit-serial CRC — each byte xored into the low bits of the accumulator
followed by eight reflected polynomial rounds — which is the textbook
definition of the 64-bit cyclic-redundancy checksum with the NVME
polynomial. -/

/-- k bit-serial CRC rounds. -/
def crcSteps : Nat → Nat → Nat
  | 0, x => x
  | k + 1, x => crcSteps k (crcBitStep x)

/-- The reference bit-serial digest: complement, per byte xor it into the
accumulator and run eight rounds, complement — the claim's "64-bit
cyclic-redundancy checksum using the NVME polynomial computed by streaming
the file's entire contents". -/
def crc64SpecStream (data : List Nat) : Nat :=
  inv64 ((data.foldl (fun c v => crcSteps 8 (c ^^^ v)) (inv64 0)))

theorem crcTableEntry_eq_steps (i : Nat) : crcTableEntry i = crcSteps 8 i := rfl

theorem xor_div_pow (a b k : Nat) : (a ^^^ b) / 2 ^ k = a / 2 ^ k ^^^ b / 2 ^ k := by
  apply Nat.eq_of_testBit_eq
  intro i
  have h : ∀ n : Nat, (n / 2 ^ k).testBit i = n.testBit (k + i) := by
    intro n
    rw [← Nat.shiftRight_eq_div_pow, Nat.testBit_shiftRight]
  rw [h, Nat.testBit_xor, Nat.testBit_xor, h, h]

theorem xor_mod_pow (a b k : Nat) : (a ^^^ b) % 2 ^ k = a % 2 ^ k ^^^ b % 2 ^ k := by
  apply Nat.eq_of_testBit_eq
  intro i
  rw [Nat.testBit_mod_two_pow, Nat.testBit_xor, Nat.testBit_xor,
    Nat.testBit_mod_two_pow, Nat.testBit_mod_two_pow]
  by_cases hik : i < k <;> simp [hik]

theorem xor_div_two (a b : Nat) : (a ^^^ b) / 2 = a / 2 ^^^ b / 2 := by
  have h := xor_div_pow a b 1
  simpa using h

theorem xor_cancel_right (x y p : Nat) : (x ^^^ p) ^^^ (y ^^^ p) = x ^^^ y := by
  rw [Nat.xor_assoc, Nat.xor_comm y p, ← Nat.xor_assoc p p y, Nat.xor_self,
    Nat.zero_xor]

theorem crcBitStep_linear (a b : Nat) :
    crcBitStep (a ^^^ b) = crcBitStep a ^^^ crcBitStep b := by
  rw [crcBitStep, crcBitStep, crcBitStep]
  have hab : (a ^^^ b) % 2 = (a + b) % 2 := Nat.xor_mod_two_eq
  rcases Nat.mod_two_eq_zero_or_one a with ha | ha <;>
    rcases Nat.mod_two_eq_zero_or_one b with hb | hb
  · rw [if_neg (by omega), if_neg (by omega), if_neg (by omega), xor_div_two]
  · rw [if_pos (by omega), if_neg (by omega), if_pos (by omega), xor_div_two,
      Nat.xor_assoc]
  · rw [if_pos (by omega), if_pos (by omega), if_neg (by omega), xor_div_two,
      Nat.xor_comm (a / 2 ^^^ crc64NVMEPoly) (b / 2), ← Nat.xor_assoc,
      Nat.xor_comm (b / 2) (a / 2)]
  · rw [if_neg (by omega), if_pos (by omega), if_pos (by omega), xor_div_two,
      xor_cancel_right]

theorem crcSteps_linear (k a b : Nat) :
    crcSteps k (a ^^^ b) = crcSteps k a ^^^ crcSteps k b := by
  induction k generalizing a b with
  | zero => rfl
  | succ k ih => rw [crcSteps, crcBitStep_linear, ih, crcSteps, crcSteps]

theorem crcSteps_mul_pow (k y : Nat) : crcSteps k (y * 2 ^ k) = y := by
  induction k generalizing y with
  | zero => simp [crcSteps]
  | succ k ih =>
    rw [crcSteps]
    have hstep : crcBitStep (y * 2 ^ (k + 1)) = y * 2 ^ k := by
      rw [crcBitStep]
      have heven : y * 2 ^ (k + 1) % 2 = 0 := by
        rw [Nat.pow_succ, ← Nat.mul_assoc]
        exact Nat.mul_mod_left _ 2
      rw [if_neg (by omega)]
      rw [Nat.pow_succ, ← Nat.mul_assoc]
      exact Nat.mul_div_cancel _ (by omega)
    rw [hstep, ih]

theorem mod_xor_mul_div (x k : Nat) : x % 2 ^ k ^^^ 2 ^ k * (x / 2 ^ k) = x := by
  apply Nat.eq_of_testBit_eq
  intro i
  rw [Nat.testBit_xor, Nat.testBit_mod_two_pow]
  have h2 : (2 ^ k * (x / 2 ^ k)).testBit i = (decide (k ≤ i) && x.testBit i) := by
    rw [Nat.mul_comm, ← Nat.shiftLeft_eq, Nat.testBit_shiftLeft]
    by_cases hik : k ≤ i
    · rw [← Nat.shiftRight_eq_div_pow, Nat.testBit_shiftRight,
        Nat.add_sub_cancel' hik]
    · simp [hik]
  rw [h2]
  by_cases hik : i < k <;> simp [hik, Nat.le_of_not_lt, Nat.not_le.mpr]

theorem crcSteps_byte (x : Nat) :
    crcSteps 8 x = crcTableEntry (x % 256) ^^^ x / 256 := by
  have h256 : (256 : Nat) = 2 ^ 8 := by norm_num
  calc crcSteps 8 x = crcSteps 8 (x % 2 ^ 8 ^^^ 2 ^ 8 * (x / 2 ^ 8)) := by
        rw [mod_xor_mul_div]
    _ = crcSteps 8 (x % 2 ^ 8) ^^^ crcSteps 8 (2 ^ 8 * (x / 2 ^ 8)) :=
        crcSteps_linear 8 _ _
    _ = crcTableEntry (x % 256) ^^^ x / 256 := by
        rw [crcTableEntry_eq_steps, Nat.mul_comm, crcSteps_mul_pow, h256]

theorem crc_byte_step_eq (c v : Nat) (hv : v < 256) :
    crcTableEntry (c % 256 ^^^ v) ^^^ c / 256 = crcSteps 8 (c ^^^ v) := by
  have h256 : (256 : Nat) = 2 ^ 8 := by norm_num
  rw [crcSteps_byte]
  have h1 : (c ^^^ v) % 256 = c % 256 ^^^ v := by
    rw [h256, xor_mod_pow]
    rw [Nat.mod_eq_of_lt (show v < 2 ^ 8 by omega)]
  have h2 : (c ^^^ v) / 256 = c / 256 := by
    rw [h256, xor_div_pow]
    rw [Nat.div_eq_of_lt (show v < 2 ^ 8 by omega), Nat.xor_zero]
  rw [h1, h2]

theorem crc64Update_eq_spec (crc : Nat) (data : List Nat) (hd : ∀ b ∈ data, b < 256) :
    crc64Update crc data =
      inv64 ((data.foldl (fun c v => crcSteps 8 (c ^^^ v)) (inv64 crc))) := by
  rw [crc64Update]
  congr 1
  suffices hgen : ∀ (l : List Nat) (z : Nat), (∀ b ∈ l, b < 256) →
      l.foldl (fun c v => crcTableEntry (c % 256 ^^^ v) ^^^ c / 256) z =
      l.foldl (fun c v => crcSteps 8 (c ^^^ v)) z from hgen data (inv64 crc) hd
  intro l
  induction l with
  | nil => intro z hl; rfl
  | cons b rest ih =>
    intro z hl
    rw [List.foldl_cons, List.foldl_cons,
      crc_byte_step_eq _ _ (hl b (List.mem_cons_self _ _))]
    exact ih _ (fun x hx => hl x (List.mem_cons_of_mem _ hx))

theorem inv64_inv64 (x : Nat) : inv64 (inv64 x) = x := by
  rw [inv64, inv64, Nat.xor_assoc, Nat.xor_self, Nat.xor_zero]

/-- C8: the content fingerprint of a readable file is the bit-serial
64-bit CRC with the NVME polynomial of the file's entire contents, encoded
as the base64 of its eight big-endian sum bytes — one fixed string ready
for direct comparison with the remote full-object checksum; streaming the
contents in chunks yields the same digest as one pass; and a file that
cannot be opened or read produces an error, never a silent skip. -/
theorem checksum_crc64nvme_spec :
    (∀ (fs : String → Option (List Nat)) (path : String), fs path = none →
      ∃ e, calculateFileChecksum fs path = .error e) ∧
    (∀ (fs : String → Option (List Nat)) (path : String) (data : List Nat),
      fs path = some data → (∀ b ∈ data, b < 256) →
      calculateFileChecksum fs path =
        .ok (base64Encode (sumBytes (crc64SpecStream data)))) ∧
    (∀ (c : Nat) (l1 l2 : List Nat),
      crc64Update (crc64Update c l1) l2 = crc64Update c (l1 ++ l2)) := by
  refine ⟨?_, ?_, ?_⟩
  · intro fs path h
    rw [calculateFileChecksum, h]
    exact ⟨_, rfl⟩
  · intro fs path data h hd
    simp only [calculateFileChecksum, h, crc64Checksum]
    rw [crc64Update_eq_spec 0 data hd]
    rfl
  · intro c l1 l2
    rw [crc64Update, crc64Update, crc64Update, inv64_inv64, List.foldl_append]

/-- The byte list of an ASCII string, for concrete test vectors. -/
def strBytes (s : String) : List Nat := s.data.map (fun c => c.toNat)

theorem checksum_crc64nvme_spec_witness :
    (calculateFileChecksum
        (fun p => if p = "hello.txt" then some (strBytes "Hello, World!\n") else none)
        "hello.txt" =
      .ok (base64Encode (sumBytes (crc64SpecStream (strBytes "Hello, World!\n"))))) ∧
    (∃ e, calculateFileChecksum (fun _ => none) "gone.txt" = .error e) := by
  constructor
  · exact checksum_crc64nvme_spec.2.1 _ "hello.txt" _ (by decide) (by decide)
  · exact checksum_crc64nvme_spec.1 _ "gone.txt" rfl

set_option maxRecDepth 100000 in
/-- The repository's own checksum test vectors, reproduced by the source
embedding. -/
theorem crc64_vector_empty :
    calculateFileChecksum (fun _ => some []) "empty.txt" = .ok "AAAAAAAAAAA=" := rfl

set_option maxRecDepth 100000 in
theorem crc64_vector_hello :
    calculateFileChecksum (fun _ => some (strBytes "Hello, World!\n")) "hello.txt" =
      .ok "SoXXbx67KpE=" := rfl

set_option maxRecDepth 100000 in
theorem crc64_vector_fox :
    calculateFileChecksum
        (fun _ => some (strBytes "The quick brown fox jumps over the lazy dog\n"))
        "known_hash.txt" = .ok "2yX60sjqiYo=" := rfl

set_option maxRecDepth 100000 in
/-- The reference bit-serial digest reproduces the same vector. -/
theorem crc64_spec_vector_hello :
    base64Encode (sumBytes (crc64SpecStream (strBytes "Hello, World!\n"))) =
      "SoXXbx67KpE=" := rfl

end S3Sync
